import Mathlib

/-!
Verification development for the football-commentary event pipeline
(minute normalisation, section splitting, lineup resolution, and the
line-by-line event classifier).  The Python source is shallowly embedded:
strings are processed as lists of characters, each regular expression of
the source is hand-translated into an executable matcher that follows the
engine's leftmost-match and backtracking behaviour, and the stateful
parsing loops become folds with explicit state.
-/

namespace Mascot

/-- Python regex class backslash-s over the ASCII range (space, tab,
newline, carriage return, form feed, vertical tab). -/
def isPySpace (c : Char) : Bool :=
  c == ' ' || c == '\t' || c == '\n' || c == '\r' || c == Char.ofNat 12 || c == Char.ofNat 11

def isAsciiDigit (c : Char) : Bool := '0' ≤ c && c ≤ '9'

def isAsciiUpper (c : Char) : Bool := 'A' ≤ c && c ≤ 'Z'

def isAsciiLower (c : Char) : Bool := 'a' ≤ c && c ≤ 'z'

def isAsciiLetter (c : Char) : Bool := isAsciiUpper c || isAsciiLower c

/-- Python regex class backslash-w (word character), ASCII model. -/
def isWordChar (c : Char) : Bool := isAsciiLetter c || isAsciiDigit c || c == '_'

/-- The plain apostrophe character. -/
def apos : Char := Char.ofNat 39

/-- The right single quotation mark, U+2019. -/
def rsq : Char := Char.ofNat 8217

/-- ASCII lower-casing of a single character (model of str.lower). -/
def toLowerChar (c : Char) : Char :=
  if isAsciiUpper c then Char.ofNat (c.toNat + 32) else c

/-- Model of unicodedata NFKD-decompose-then-drop-combining, character-wise,
for the Latin accented letters that can occur in this domain; every other
character is returned unchanged (exact for ASCII input). -/
def stripAccentChar (c : Char) : Char :=
  if c == 'á' || c == 'à' || c == 'â' || c == 'ä' || c == 'ã' then 'a'
  else if c == 'é' || c == 'è' || c == 'ê' || c == 'ë' then 'e'
  else if c == 'í' || c == 'ì' || c == 'î' || c == 'ï' then 'i'
  else if c == 'ó' || c == 'ò' || c == 'ô' || c == 'ö' || c == 'õ' then 'o'
  else if c == 'ú' || c == 'ù' || c == 'û' || c == 'ü' then 'u'
  else if c == 'ñ' then 'n'
  else if c == 'ç' then 'c'
  else if c == 'Á' || c == 'À' || c == 'Â' || c == 'Ä' then 'A'
  else if c == 'É' || c == 'È' || c == 'Ê' then 'E'
  else if c == 'Í' then 'I'
  else if c == 'Ó' || c == 'Ô' || c == 'Ö' then 'O'
  else if c == 'Ú' || c == 'Ü' then 'U'
  else if c == 'Ñ' then 'N'
  else if c == 'Ç' then 'C'
  else c

/-- Source parser._strip_accents, character-list form. -/
def stripAccentsL (l : List Char) : List Char := l.map stripAccentChar

/-- Source parser._norm: accent stripping followed by lower-casing. -/
def normL (l : List Char) : List Char := l.map (fun c => toLowerChar (stripAccentChar c))

/-- Whether the pattern list is a prefix of the other list (Boolean). -/
def startsWithL : List Char → List Char → Bool
  | [], _ => true
  | _ :: _, [] => false
  | p :: ps, c :: cs => p == c && startsWithL ps cs

/-- Case-insensitive (ASCII) prefix test, for regexes compiled with re.I. -/
def startsWithCI : List Char → List Char → Bool
  | [], _ => true
  | _ :: _, [] => false
  | p :: ps, c :: cs => toLowerChar p == toLowerChar c && startsWithCI ps cs

/-- Substring containment (Python "needle in hay"). -/
def containsSubL : List Char → List Char → Bool
  | needle, [] => needle.isEmpty
  | needle, hay@(_ :: rest) => startsWithL needle hay || containsSubL needle rest

/-- Python str.strip on a character list. -/
def trimL (l : List Char) : List Char :=
  ((l.dropWhile isPySpace).reverse.dropWhile isPySpace).reverse

/-- Number of comma characters in a list (Python str.count for a comma). -/
def commaCount (l : List Char) : Nat := l.countP (fun c => c == ',')

/-- Split on runs of newline characters; empty pieces are kept (they are
filtered out by the caller exactly as the source filters blank lines). -/
def splitOnNL : List Char → List Char → List (List Char)
  | acc, [] => [acc.reverse]
  | acc, '\n' :: rest => acc.reverse :: splitOnNL [] rest
  | acc, c :: rest => splitOnNL (c :: acc) rest

/-! ## Embedding of src/preproc.py -/

/-- Model of the Python format int(minute) applied to an all-digit regex
group: leading zeros are removed (an all-zero group renders as a single
zero). -/
def stripZeros (ds : List Char) : List Char :=
  match ds.dropWhile (fun c => c == '0') with
  | [] => ['0']
  | l => l

/-- Source preproc._tag: render the tag for a minute group and an optional
added-time group (the added group is not int-converted in the source). -/
def tagOf (ds : List Char) (ms : Option (List Char)) : List Char :=
  ("[MIN=".data ++ stripZeros ds) ++
    ((match ms with
      | none => []
      | some m => '+' :: m) ++ "]".data)

/-- Try the separator tail of MIN_LINE at the given suffix: optional
whitespace, then one of colon / apostrophe / right quote, then trailing
whitespace.  Returns the rest after the match and whether the last
consumed character was a newline (needed for the multiline caret of the
continuing scan). -/
def minLineSep (l : List Char) : Option (List Char × Bool) :=
  let sp := l.takeWhile isPySpace
  match l.drop sp.length with
  | [] => none
  | c :: rest =>
    if c == ':' || c == apos || c == rsq then
      let sp2 := rest.takeWhile isPySpace
      some (rest.drop sp2.length, (sp2.getLastD c) == '\n')
    else none

/-- Match of preproc.MIN_LINE at a line-start position: optional
whitespace, one-to-three digits, an optional plus group of one or two
digits, optional whitespace, a separator glyph, trailing whitespace.
Returns (minute group, optional added group, rest, last-was-newline).
When the plus group is present but invalid it backtracks to empty, after
which a separator would have to stand where the plus sign is, which it
cannot, so the whole match fails. -/
def matchMinLine (l : List Char) : Option (List Char × Option (List Char) × List Char × Bool) :=
  let l1 := l.dropWhile isPySpace
  let ds := l1.takeWhile isAsciiDigit
  if ds.length < 1 || 3 < ds.length then none
  else
    let l2 := l1.drop ds.length
    let noPlus : Option (List Char × Option (List Char) × List Char × Bool) :=
      match minLineSep l2 with
      | some (rest, nl) => some (ds, none, rest, nl)
      | none => none
    match l2 with
    | c :: l3 =>
      if c == '+' then
        let ms := l3.takeWhile isAsciiDigit
        if 1 ≤ ms.length && ms.length ≤ 2 then
          match minLineSep (l3.drop ms.length) with
          | some (rest, nl) => some (ds, some ms, rest, nl)
          | none => none
        else none
      else noPlus
    | [] => noPlus

/-- The substitution pass MIN_LINE.sub of normalise_minutes: a fuel-driven
left-to-right scan that attempts the anchored pattern only at line starts
(position zero or right after a newline), replacing each match by the tag
and a space, exactly as repl_line does. -/
def minLineGo : Nat → Bool → List Char → List Char
  | 0, _, l => l
  | _ + 1, _, [] => []
  | f + 1, atStart, c :: rest =>
    if atStart then
      match matchMinLine (c :: rest) with
      | some (ds, ms, rest2, nl) => (tagOf ds ms ++ [' ']) ++ minLineGo f nl rest2
      | none => c :: minLineGo f (c == '\n') rest
    else c :: minLineGo f (c == '\n') rest

def minLineSub (l : List Char) : List Char := minLineGo (l.length + 1) true l

/-- Whether the rest of the input does not start with a word character
(a word boundary after a word character, or end of input). -/
def noWordNext : List Char → Bool
  | [] => true
  | c :: _ => !(isWordChar c)

/-- Whether the rest of the input starts with a word character (a word
boundary after a non-word character). -/
def wordNext : List Char → Bool
  | [] => false
  | c :: _ => isWordChar c

/-- The tail of a MIN_INLINE candidate after its digit groups: an
optional apostrophe-like glyph (preferred present) and the trailing word
boundary.  The group pair is fixed by the caller. -/
def miFinish (ds : List Char) (ms : Option (List Char)) (lastDigit : Char) (l2 : List Char) :
    Option (List Char × Option (List Char) × List Char × Char) :=
  match l2 with
  | a :: rest2 =>
    if (a == apos || a == rsq) && wordNext rest2 then
      some (ds, ms, rest2, a)
    else if noWordNext l2 then
      some (ds, ms, l2, lastDigit)
    else none
  | [] => some (ds, ms, [], lastDigit)

/-- One backtracking attempt of the plus group of MIN_INLINE, taking k
digits after the plus sign. -/
def miPlus (ds ms l3 : List Char) (k : Nat) :
    Option (List Char × Option (List Char) × List Char × Char) :=
  if k ≤ ms.length && 1 ≤ k then
    let g2 := ms.take k
    miFinish ds (some g2) (g2.getLastD '0') (l3.drop k)
  else none

/-- Match of preproc.MIN_INLINE at the current position given the previous
character: a word boundary, one-to-three digits, an optional plus group of
one or two digits, an optional apostrophe-like glyph, and a trailing word
boundary.  Backtracking follows the engine: the plus group is preferred
greedy (two digits before one before none), then the optional glyph is
preferred present.  Returns (minute group, added group, rest, last
consumed character). -/
def matchMinInline (prev : Option Char) (l : List Char) : Option (List Char × Option (List Char) × List Char × Char) :=
  let prevWord := match prev with
    | none => false
    | some p => isWordChar p
  if prevWord then none
  else
    let ds := l.takeWhile isAsciiDigit
    if ds.length < 1 || 3 < ds.length then none
    else
      let l2 := l.drop ds.length
      match l2 with
      | c :: l3 =>
        if c == '+' then
          let ms := l3.takeWhile isAsciiDigit
          match miPlus ds ms l3 2 with
          | some r => some r
          | none =>
            match miPlus ds ms l3 1 with
            | some r => some r
            | none => miFinish ds none (ds.getLastD '0') l2
        else miFinish ds none (ds.getLastD '0') l2
      | [] => miFinish ds none (ds.getLastD '0') l2

/-- The substitution pass MIN_INLINE.sub of normalise_minutes: global scan
carrying the previous character for word-boundary tests; each match is
replaced by its tag and the scan resumes right after the matched text. -/
def minInlineGo : Nat → Option Char → List Char → List Char
  | 0, _, l => l
  | _ + 1, _, [] => []
  | f + 1, prev, c :: rest =>
    match matchMinInline prev (c :: rest) with
    | some (ds, ms, rest2, last) => tagOf ds ms ++ minInlineGo f (some last) rest2
    | none => c :: minInlineGo f (some c) rest

def minInlineSub (l : List Char) : List Char := minInlineGo (l.length + 1) none l

/-- Source preproc.normalise_minutes: the line-start pass followed by the
inline safety pass. -/
def normaliseMinutes (s : String) : String := ⟨minInlineSub (minLineSub s.data)⟩

/-! ## Embedding of src/ingest.py -/

/-- The static canonical-name table TEAM_ALIASES of the source. -/
def teamAliasTable : List (String × String) :=
  [("man utd", "Manchester United"),
   ("manchester utd", "Manchester United"),
   ("man united", "Manchester United"),
   ("Manchester Utd", "Manchester United"),
   ("chelsea fc", "Chelsea")]

/-- Source ingest._canon_team.  The source evaluates
TEAM_ALIASES.get(nm.lower, nm): the key is the un-invoked bound method
object str.lower, never a string, so the dictionary lookup always misses
and the stripped name is returned unchanged.  The embedding reproduces
that behaviour faithfully. -/
def canonTeam (name : List Char) : List Char := trimL name

/-- Source ingest._strip_trailing_punct: strip, then drop one trailing run
of dots, semicolons, colons, commas, middle dots and whitespace. -/
def stripTrailingPunct (l : List Char) : List Char :=
  ((trimL l).reverse.dropWhile
    (fun c => c == '.' || c == ';' || c == ':' || c == ',' || c == '·' || isPySpace c)).reverse

/-- Tail of the lineup-line regexes after the colon: optional whitespace
then a nonempty remainder (the greedy dot-plus group; when everything
after the colon is whitespace the group backtracks to a single whitespace
character). -/
def colonRhs (l : List Char) : Option (List Char) :=
  match l with
  | [] => none
  | _ :: _ =>
    let s3 := l.dropWhile isPySpace
    match s3 with
    | [] => some [l.getLastD ' ']
    | _ :: _ => some s3

/-- The character class of the team-name group in TEAM_LINE and
SUBS_INLINE: letters, digits, space, dot, apostrophe, hyphen. -/
def isTeamNameChar (c : Char) : Bool :=
  isAsciiLetter c || isAsciiDigit c || c == ' ' || c == '.' || c == apos || c == '-'

/-- Try, at the suffix after a lazily grown name group, the pattern tail:
optional whitespace, one of the given keywords (tried in alternation
order, case-insensitively; the empty list position encodes an optional
group via the extra try below), optional whitespace, a colon, then the
right-hand side. -/
def keywordColonTail (kws : List (List Char)) (optional : Bool) (s : List Char) : Option (List Char) :=
  let s1 := s.dropWhile isPySpace
  let tryOne : List Char → Option (List Char) := fun kw =>
    if startsWithCI kw s1 then
      let s2 := (s1.drop kw.length).dropWhile isPySpace
      match s2 with
      | ':' :: rest => colonRhs rest
      | _ => none
    else none
  let rec firstSome : List (List Char) → Option (List Char)
    | [] => none
    | kw :: more =>
      match tryOne kw with
      | some r => some r
      | none => firstSome more
  match firstSome kws with
  | some r => some r
  | none =>
    if optional then
      match s1 with
      | ':' :: rest => colonRhs rest
      | _ => none
    else none

/-- Lazy growth of the name group of TEAM_LINE / SUBS_INLINE: the shortest
nonempty run of name characters after which the keyword-colon tail
matches. -/
def lazyNameSplit (kws : List (List Char)) (optional : Bool) : List Char → List Char → Option (List Char × List Char)
  | acc, l =>
    match keywordColonTail kws optional l with
    | some rhs =>
      if acc.isEmpty then none else some (acc.reverse, rhs)
    | none =>
      match l with
      | c :: rest => if isTeamNameChar c then lazyNameSplit kws optional (c :: acc) rest else none
      | [] => none

/-- The negative lookahead of TEAM_LINE: blocks when the suffix starts
with the word Context (case-insensitively) followed by optional
whitespace and a colon. -/
def contextBlocks (s : List Char) : Bool :=
  startsWithCI "Context".data s &&
    (match (s.drop 7).dropWhile isPySpace with
     | ':' :: _ => true
     | _ => false)

/-- Backtracking over the leading whitespace of TEAM_LINE: the greedy run
is tried longest first; at each length the lookahead is checked and the
lazy name split attempted. -/
def teamLineTryW : Nat → List Char → Option (List Char × List Char)
  | w, l =>
    let s := l.drop w
    let attempt : Option (List Char × List Char) :=
      if contextBlocks s then none
      else
        match s with
        | c :: rest =>
          if isTeamNameChar c then lazyNameSplit ["XI".data, "Lineup".data, "Starting XI".data] true [c] rest
          else none
        | [] => none
    match attempt with
    | some r => some r
    | none =>
      match w with
      | 0 => none
      | w' + 1 => teamLineTryW w' l

/-- Source ingest.TEAM_LINE matched at the start of a line; returns the
name group and the right-hand-side group. -/
def teamLineMatch (l : List Char) : Option (List Char × List Char) :=
  teamLineTryW (l.takeWhile isPySpace).length l

/-- Backtracking over the leading whitespace of SUBS_INLINE. -/
def subsInlineTryW : Nat → List Char → Option (List Char × List Char)
  | w, l =>
    let s := l.drop w
    let attempt : Option (List Char × List Char) :=
      match s with
      | c :: rest =>
        if isTeamNameChar c then lazyNameSplit ["Subs".data, "Substitutes".data, "Bench".data] false [c] rest
        else none
      | [] => none
    match attempt with
    | some r => some r
    | none =>
      match w with
      | 0 => none
      | w' + 1 => subsInlineTryW w' l

/-- Source ingest.SUBS_INLINE matched at the start of a line. -/
def subsInlineMatch (l : List Char) : Option (List Char × List Char) :=
  subsInlineTryW (l.takeWhile isPySpace).length l

/-- Source ingest.SUBS_BARE matched at the start of a line. -/
def subsBareMatch (l : List Char) : Option (List Char) :=
  keywordColonTail ["Subs".data, "Substitutes".data, "Bench".data] false (l.dropWhile isPySpace)

/-- One line of ingest._extract_frontmatter: given the threaded last
lineup team, classify the line.  Returns the new last team and either
nothing (blank line) or a flag telling whether the produced text is a
lineup line (true) or a context line (false), with the text to record. -/
def fmStep (lt : Option (List Char)) (ln : List Char) :
    Option (List Char) × Option (Bool × List Char) :=
  if (trimL ln).isEmpty then (lt, none)
  else
    match teamLineMatch ln with
    | some (nm, rhs) =>
      if 5 ≤ commaCount rhs then (some (trimL nm), some (true, trimL ln))
      else (lt, some (false, trimL ln))
    | none =>
      match subsInlineMatch ln with
      | some (nm, rhs) =>
        if 3 ≤ commaCount rhs then (some (trimL nm), some (true, trimL ln))
        else (lt, some (false, trimL ln))
      | none =>
        match subsBareMatch ln, lt with
        | some rhs, some t =>
          if 3 ≤ commaCount rhs then (lt, some (true, (t ++ " Subs: ".data) ++ trimL rhs))
          else (lt, some (false, trimL ln))
        | _, _ => (lt, some (false, trimL ln))

/-- Source ingest._extract_frontmatter: classify header lines into context
and lineup lines, threading the last lineup team for bare Subs lines.
Returns (context lines, lineup lines). -/
def extractFM : Option (List Char) → List (List Char) → (List (List Char) × List (List Char))
  | _, [] => ([], [])
  | lt, ln :: rest =>
    match fmStep lt ln with
    | (lt2, none) => extractFM lt2 rest
    | (lt2, some (isLup, txt)) =>
      let r := extractFM lt2 rest
      if isLup then (r.1, txt :: r.2) else (txt :: r.1, r.2)

/-- String-level wrapper for the front-matter classifier. -/
def extractFrontmatter (front : List String) : List String × List String :=
  let r := extractFM none (front.map String.data)
  (r.1.map (fun l => (⟨l⟩ : String)), r.2.map (fun l => (⟨l⟩ : String)))

/-- One separator of the name-list splitter of ingest._norm_names, in
alternation order: comma, semicolon, single-space en dash, single-space
hyphen, multi-space en dash.  Returns the consumed length. -/
def nameSepLen (l : List Char) : Option Nat :=
  match l with
  | ',' :: _ => some 1
  | ';' :: _ => some 1
  | a :: '–' :: b :: _ =>
    if isPySpace a && isPySpace b then some 3 else none
  | a :: '-' :: b :: _ =>
    if isPySpace a && isPySpace b then some 3
    else none
  | _ => none

/-- Multi-whitespace en dash alternative of the splitter (tried after the
single-whitespace alternatives). -/
def nameSepLenWide (l : List Char) : Option Nat :=
  let w := (l.takeWhile isPySpace).length
  if w < 1 then none
  else
    match l.drop w with
    | '–' :: rest =>
      let v := (rest.takeWhile isPySpace).length
      if v < 1 then none else some (w + 1 + v)
    | _ => none

/-- The scanning split of ingest._norm_names (re.split over the separator
alternation), fuel-driven because a separator consumes several
characters. -/
def splitNames : Nat → List Char → List Char → List (List Char)
  | 0, acc, l => [(acc.reverse ++ l)]
  | _ + 1, acc, [] => [acc.reverse]
  | f + 1, acc, l@(c :: rest) =>
    match nameSepLen l with
    | some k => acc.reverse :: splitNames f [] (l.drop k)
    | none =>
      match nameSepLenWide l with
      | some k => acc.reverse :: splitNames f [] (l.drop k)
      | none => splitNames f (c :: acc) rest

/-- Source ingest._norm_names: split on the separators, strip trailing
punctuation from each part, drop empties. -/
def normNames (l : List Char) : List (List Char) :=
  ((splitNames (l.length + 1) [] l).map stripTrailingPunct).filter (fun p => !p.isEmpty)

/-- Append names to a team's accumulator in the insertion-ordered team
map (Python dict setdefault followed by extend). -/
def extendTeam : List (List Char × List (List Char)) → List Char → List (List Char) → List (List Char × List (List Char))
  | [], team, names => [(team, names)]
  | (t, r) :: rest, team, names =>
    if t == team then (t, r ++ names) :: rest
    else (t, r) :: extendTeam rest team names

/-- The accumulation loop of ingest.parse_lineups: subs-inline lines
first, then bare subs attached to the last team, then team lines with the
hard guard against the literal token Subs. -/
def plGo : Option (List Char) → List (List Char × List (List Char)) → List (List Char) → List (List Char × List (List Char))
  | _, teams, [] => teams
  | lt, teams, ln :: rest =>
    match subsInlineMatch ln with
    | some (nm, rhs) =>
      let team := canonTeam (trimL nm)
      plGo (some team) (extendTeam teams team (normNames rhs)) rest
    | none =>
      match subsBareMatch ln, lt with
      | some rhs, some t => plGo lt (extendTeam teams t (normNames rhs)) rest
      | _, _ =>
        match teamLineMatch ln with
        | some (nm, rhs) =>
          let raw := trimL nm
          if raw.map toLowerChar == "subs".data then plGo lt teams rest
          else
            let team := canonTeam raw
            plGo (some team) (extendTeam teams team (normNames rhs)) rest
        | none => plGo lt teams rest

/-- Deduplication of a roster on output (ingest.parse_lineups dedup):
strip trailing punctuation, drop empties and repeats, first wins. -/
def dedupRoster : List (List Char) → List (List Char) → List (List Char)
  | _, [] => []
  | seen, x :: rest =>
    let x2 := stripTrailingPunct x
    if x2.isEmpty || seen.contains x2 then dedupRoster seen rest
    else x2 :: dedupRoster (x2 :: seen) rest

/-- The ordered team map identified by the accumulation loop (the Python
list(teams.keys()) with rosters). -/
def identifiedTeams (lns : List (List Char)) : List (List Char × List (List Char)) :=
  plGo none [] lns

/-- Source ingest.parse_lineups: returns the first two identified teams
with deduplicated rosters, or fails carrying the raw candidate lines when
fewer than two teams were identified. -/
def parseLineupsL (lns : List (List Char)) :
    Except (List (List Char)) ((List Char × List (List Char)) × (List Char × List (List Char))) :=
  match identifiedTeams lns with
  | t1 :: t2 :: _ => .ok ((t1.1, dedupRoster [] t1.2), (t2.1, dedupRoster [] t2.2))
  | _ => .error lns

/-- String-level wrapper for parse_lineups. -/
def parseLineups (lns : List String) :
    Except (List String) (String × List String × String × List String) :=
  match parseLineupsL (lns.map String.data) with
  | .ok ((t1, r1), (t2, r2)) =>
    .ok (⟨t1⟩, r1.map (fun l => (⟨l⟩ : String)), ⟨t2⟩, r2.map (fun l => (⟨l⟩ : String)))
  | .error _ => .error lns

/-! ## Embedding of src/parser.py -/

/-- Python str.replace (all non-overlapping occurrences, left to right),
fuel-driven. -/
def replaceAllSub (needle repl : List Char) : Nat → List Char → List Char
  | 0, l => l
  | _ + 1, [] => []
  | f + 1, l@(c :: rest) =>
    if startsWithL needle l then repl ++ replaceAllSub needle repl f (l.drop needle.length)
    else c :: replaceAllSub needle repl f rest

/-- Insertion into a duplicate-free list (set semantics: only membership
of the result is ever used, mirroring the Python set). -/
def setInsert (l : List (List Char)) (x : List Char) : List (List Char) :=
  if l.contains x then l else l ++ [x]

/-- Source parser.build_team_aliases. -/
def buildTeamAliases (team : List Char) : List (List Char) :=
  let base := normL team
  let t := trimL (replaceAllSub "fc".data [] (base.length + 1) base)
  let s0 := setInsert [base] t
  let s1 :=
    if containsSubL "united".data t || containsSubL "utd".data t then
      setInsert (setInsert (setInsert (setInsert s0 "manchester united".data) "man utd".data)
        "manchester utd".data) "united".data
    else s0
  if containsSubL "chelsea".data t then setInsert s1 "chelsea".data else s1

/-- The keyword table KEYWORDS of the source, one list per bucket. -/
def kwGoal : List (List Char) :=
  ["goal!".data, "scores".data, "finds the net".data, "puts it in".data, "finishes".data,
   "equalises".data, "equalizes".data, "makes it".data]

def kwMiss : List (List Char) :=
  ["misses".data, "wide".data, "over the bar".data, "skies it".data, "sitter".data,
   "drags it".data, "fluffs".data]

def kwSave : List (List Char) :=
  ["attempt saved".data, "great save".data, "parries".data, "denies".data, "save".data,
   "stops".data, "claims".data, "palm".data]

def kwBlock : List (List Char) := ["attempt blocked".data, "block".data]

def kwFoul : List (List Char) := ["foul by".data, "commits a foul".data]

def kwFreekick : List (List Char) := ["wins a free kick".data, "free kick in".data]

def kwYc : List (List Char) := ["yellow card".data, "booked".data]

def kwRc : List (List Char) :=
  ["red card".data, "dismissal".data, "sent off".data, "second yellow card".data]

def kwDisallowed : List (List Char) :=
  ["ball in the net".data, "flag is up".data, "ruled out".data, "disallowed".data,
   "out of play before".data, "offside in the build-up".data]

def kwKo : List (List Char) := ["kick-off".data, "kicks off".data]

def kwHt : List (List Char) := ["half time".data]

def kwFt : List (List Char) := ["full time".data]

/-- Containment of any keyword of a bucket in the normalized line. -/
def anyKw (kws : List (List Char)) (low : List Char) : Bool :=
  kws.any (fun k => containsSubL k low)

/-- Match of parser.ADDED_PAIR at one position (case-insensitive): a MIN
tag, possibly doubled, with a one-to-three-digit group and an optional
stray close bracket, then optional whitespace, a plus sign and a second
MIN tag with a one-to-two-digit group. -/
def matchAddedPairAt (l : List Char) : Option (List Char × List Char) :=
  if !(startsWithCI "[MIN=".data l) then none
  else
    let l1 := l.drop 5
    let l2 :=
      if startsWithCI "[MIN=".data l1 && (decide (1 ≤ ((l1.drop 5).takeWhile isAsciiDigit).length)) then
        l1.drop 5
      else l1
    let ds := l2.takeWhile isAsciiDigit
    if ds.length < 1 || 3 < ds.length then none
    else
      let l3 := l2.drop ds.length
      let brCount : Option Nat :=
        match l3 with
        | ']' :: ']' :: _ => some 2
        | ']' :: _ => some 1
        | _ => none
      match brCount with
      | none => none
      | some k =>
        let l4 := (l3.drop k).dropWhile isPySpace
        match l4 with
        | '+' :: l5 =>
          if startsWithCI "[MIN=".data l5 then
            let ms := (l5.drop 5).takeWhile isAsciiDigit
            if ms.length < 1 || 2 < ms.length then none
            else
              match (l5.drop 5).drop ms.length with
              | ']' :: _ => some (ds, ms)
              | _ => none
          else none
        | _ => none

/-- Search of ADDED_PAIR anywhere in the line (leftmost match). -/
def searchAddedPair : List Char → Option (List Char × List Char)
  | [] => none
  | l@(_ :: rest) =>
    match matchAddedPairAt l with
    | some r => some r
    | none => searchAddedPair rest

/-- The minute-number group with optional added time followed by a close
bracket, shared by START_MIN and MIN_TAG: one-to-three digits, optionally
a plus sign and one-to-two digits, then the bracket. -/
def minGroupBracket (l : List Char) : Option (List Char) :=
  let ds := l.takeWhile isAsciiDigit
  if ds.length < 1 || 3 < ds.length then none
  else
    match l.drop ds.length with
    | ']' :: _ => some ds
    | '+' :: l2 =>
      let ms := l2.takeWhile isAsciiDigit
      if 1 ≤ ms.length && ms.length ≤ 2 then
        match l2.drop ms.length with
        | ']' :: _ => some ((ds ++ ['+']) ++ ms)
        | _ => none
      else none
    | _ => none

/-- Match of parser.START_MIN at the start of the line (case-sensitive):
optional whitespace, a MIN tag possibly doubled, capturing the minute
group. -/
def matchStartMin (l : List Char) : Option (List Char) :=
  let l1 := l.dropWhile isPySpace
  if !(startsWithL "[MIN=".data l1) then none
  else
    let l2 := l1.drop 5
    let l3 :=
      if startsWithL "[MIN=".data l2 && (decide (1 ≤ ((l2.drop 5).takeWhile isAsciiDigit).length)) then
        l2.drop 5
      else l2
    minGroupBracket l3

/-- Match of the bare leading minute of _extract_minute: optional
whitespace, one-to-three digits, optionally a plus group, optional
whitespace, an apostrophe-like glyph. -/
def matchBareMinute (l : List Char) : Option (List Char) :=
  let l1 := l.dropWhile isPySpace
  let ds := l1.takeWhile isAsciiDigit
  if ds.length < 1 || 3 < ds.length then none
  else
    let finish : List Char → List Char → Option (List Char) := fun g rest =>
      match rest.dropWhile isPySpace with
      | c :: _ => if c == apos || c == rsq then some g else none
      | [] => none
    match l1.drop ds.length with
    | '+' :: l2 =>
      let ms := l2.takeWhile isAsciiDigit
      if 1 ≤ ms.length && ms.length ≤ 2 then
        match finish ((ds ++ ['+']) ++ ms) (l2.drop ms.length) with
        | some g => some g
        | none => none
      else none
    | rest => finish ds rest

/-- Leftmost MIN_TAG match anywhere in the line (the head of the findall
of _extract_minute's fallback). -/
def findFirstMinTag : List Char → Option (List Char)
  | [] => none
  | l@(_ :: rest) =>
    if startsWithL "[MIN=".data l then
      match minGroupBracket (l.drop 5) with
      | some g => some g
      | none => findFirstMinTag rest
    else findFirstMinTag rest

/-- Source parser._extract_minute: the empty-string shortcut, then the
four matchers in source order, then the fallback. -/
def extractMinute (l : List Char) (fb : Option (List Char)) : Option (List Char) :=
  if l.isEmpty then fb
  else
    match searchAddedPair l with
    | some (b, a) => some ((b ++ ['+']) ++ a)
    | none =>
      match matchStartMin l with
      | some g => some g
      | none =>
        match matchBareMinute l with
        | some g => some g
        | none =>
          match findFirstMinTag l with
          | some g => some g
          | none => fb

/-- The spec-side minute resolution: the five alternatives (a) to (e) of
the specification combined by first-success choice.  Kept distinct from
extractMinute so that the precedence claim is an actual comparison. -/
def specMinute (l : List Char) (fb : Option (List Char)) : Option (List Char) :=
  (((searchAddedPair l).map (fun p => (p.1 ++ ['+']) ++ p.2)).orElse
    (fun _ => (matchStartMin l).orElse
      (fun _ => (matchBareMinute l).orElse
        (fun _ => (findFirstMinTag l).orElse (fun _ => fb)))))

/-- Candidate matches, in backtracking preference order, of the name
shape used across the parser regexes: an upper-case letter followed by a
nonempty maximal run of lower-case letters, optionally a single
whitespace character and a second such word (the two-word candidate is
preferred, as the optional group is greedy).  With ci set, the case
classes collapse to letters, as under re.I.  Returns (name, rest). -/
def nameCands (ci : Bool) (l : List Char) : List (List Char × List Char) :=
  let isUp : Char → Bool := fun c => if ci then isAsciiLetter c else isAsciiUpper c
  let isLo : Char → Bool := fun c => if ci then isAsciiLetter c else isAsciiLower c
  match l with
  | c0 :: l1 =>
    if isUp c0 then
      let run1 := l1.takeWhile isLo
      if run1.length < 1 then []
      else
        let r1 := l1.drop run1.length
        let one := (c0 :: run1, r1)
        match r1 with
        | s :: l2 =>
          if isPySpace s then
            match l2 with
            | c1 :: l3 =>
              if isUp c1 then
                let run2 := l3.takeWhile isLo
                if run2.length < 1 then [one]
                else [(((c0 :: run1) ++ [s]) ++ c1 :: run2, l3.drop run2.length), one]
              else [one]
            | [] => [one]
          else [one]
        | [] => [one]
    else []
  | [] => []

/-- Whether a word boundary holds between a previous character and the
start of a word-character token. -/
def boundaryBefore (prev : Option Char) : Bool :=
  match prev with
  | none => true
  | some p => !(isWordChar p)

/-- Whether a word boundary holds right after a word character, given the
rest of the input. -/
def boundaryAfter (rest : List Char) : Bool :=
  match rest with
  | [] => true
  | c :: _ => !(isWordChar c)

/-- The findall of the capitalized-token pattern of detect_player:
word-boundary-delimited one-or-two-word capitalized names, scanning left
to right and resuming after each match. -/
def capsFind : Nat → Option Char → List Char → List (List Char)
  | 0, _, _ => []
  | _ + 1, _, [] => []
  | f + 1, prev, l@(c :: rest) =>
    let cand : Option (List Char × List Char) :=
      if boundaryBefore prev then
        match (nameCands false l).filter (fun p => boundaryAfter p.2) with
        | r :: _ => some r
        | [] => none
      else none
    match cand with
    | some (nm, rest2) => nm :: capsFind f (some (nm.getLastD c)) rest2
    | none => capsFind f (some c) rest

/-- The findall of parser.NAME_TEAM_PARENS (case-sensitive): a
capitalized one-or-two-word name, optional whitespace, a parenthesized
nonempty run of non-close-paren characters.  Returns the (name, team)
group pairs in match order. -/
def parensFind : Nat → Option Char → List Char → List (List Char × List Char)
  | 0, _, _ => []
  | _ + 1, _, [] => []
  | f + 1, prev, l@(c :: rest) =>
    let tryCand : List Char × List Char → Option ((List Char × List Char) × List Char) := fun p =>
      match (p.2.dropWhile isPySpace) with
      | '(' :: l2 =>
        let team := l2.takeWhile (fun d => !(d == ')'))
        if team.length < 1 then none
        else
          match l2.drop team.length with
          | ')' :: rest3 => some ((p.1, team), rest3)
          | _ => none
      | _ => none
    let cand : Option ((List Char × List Char) × List Char) :=
      if boundaryBefore prev then
        match (nameCands false l).filterMap tryCand with
        | r :: _ => some r
        | [] => none
      else none
    match cand with
    | some (pr, rest2) => pr :: parensFind f (some ')') rest2
    | none => parensFind f (some c) rest

/-- One iteration of parser.LABEL_PREFIX: an upper-case letter, a run of
the shouty class, backtracked so that the literal exclamation mark is the
last class character consumed, then trailing whitespace.  Returns the
consumed characters and the rest. -/
def labelOnce (l : List Char) : Option (List Char × List Char) :=
  match l with
  | c0 :: l1 =>
    if isAsciiUpper c0 then
      let run := l1.takeWhile (fun c => isAsciiUpper c || c == ' ' || c == '!' || c == '-')
      let rec lastBang : Nat → Option Nat := fun k =>
        match k with
        | 0 => none
        | j + 1 => if run.getD (j + 1) ' ' == '!' then some (j + 1) else lastBang j
      match lastBang (run.length - 1) with
      | none => none
      | some i =>
        let rest := l1.drop (i + 1)
        let sp := rest.takeWhile isPySpace
        some ((c0 :: run.take (i + 1)) ++ sp, rest.drop sp.length)
    else none
  | [] => none

/-- The full LABEL_PREFIX match at the start of a line: one or more
shouty iterations; returns the whole consumed group. -/
def labelIter : Nat → List Char → Option (List Char × List Char)
  | 0, _ => none
  | f + 1, l =>
    match labelOnce l with
    | none => none
    | some (g, rest) =>
      match labelIter f rest with
      | some (g2, rest2) => some (g ++ g2, rest2)
      | none => some (g, rest)

def labelMatch (l : List Char) : Option (List Char × List Char) :=
  labelIter (l.length + 1) l

/-- The findall of parser.QUOTE_PAT: straight or curly opening quote, a
lazy nonempty run of non-newline characters, the earliest closing quote.
Returns the quoted groups in match order. -/
def quotesFind : Nat → List Char → List (List Char)
  | 0, _ => []
  | _ + 1, [] => []
  | f + 1, c :: rest =>
    if c == Char.ofNat 34 || c == Char.ofNat 8220 then
      let rec firstClose : List Char → Nat → Option Nat := fun l k =>
        match l with
        | [] => none
        | d :: more =>
          if d == '\n' then none
          else if 1 ≤ k && (d == Char.ofNat 34 || d == Char.ofNat 8221) then some k
          else firstClose more (k + 1)
      match firstClose rest 0 with
      | some j => rest.take j :: quotesFind f (rest.drop (j + 1))
      | none => quotesFind f rest
    else quotesFind f rest

/-- Match of parser.SUB_PAT_1 anchored at the line start
(case-insensitive): the substitution literal, the team group backtracked
from its greedy run so that a colon or dot separator follows, the
incoming player (lazy, up to the replaces literal), the outgoing player
(lazy from the end, shedding one optional dot or bang and trailing
whitespace).  Returns (team, on, off). -/
def subPat1Rhs : List Char → List Char → Option (List Char × List Char)
  | acc, l =>
    let attempt : Option (List Char × List Char) :=
      if acc.isEmpty then none
      else
        let ws := l.takeWhile isPySpace
        if ws.length < 1 then none
        else
          let l1 := l.drop ws.length
          if startsWithCI "replaces".data l1 then
            let l2 := l1.drop 8
            let ws2 := l2.takeWhile isPySpace
            if ws2.length < 1 then none
            else
              let tail := l2.drop ws2.length
              if tail.any (fun c => c == ':') then none
              else
                let t1 := tail.reverse.dropWhile isPySpace
                let t2 :=
                  match t1 with
                  | c :: more => if c == '.' || c == '!' then more else t1
                  | [] => t1
                if t2.isEmpty then none else some (acc.reverse, t2.reverse)
          else none
    match attempt with
    | some r => some r
    | none =>
      match l with
      | c :: rest => if c == ':' then none else subPat1Rhs (c :: acc) rest
      | [] => none

def subPat1TeamSplit : Nat → List Char → List Char → Option (List Char × List Char × List Char)
  | 0, _, _ => none
  | k + 1, l2, run =>
    let g1 := l2.take (k + 1)
    let after := (l2.drop (k + 1)).dropWhile isPySpace
    let attempt : Option (List Char × List Char × List Char) :=
      match after with
      | c :: rest3 =>
        if c == ':' || c == '.' then
          match subPat1Rhs [] ((rest3).dropWhile isPySpace) with
          | some (onp, offp) => some (g1, onp, offp)
          | none => none
        else none
      | [] => none
    match attempt with
    | some r => some r
    | none => subPat1TeamSplit k l2 run

def subPat1Match (l : List Char) : Option (List Char × List Char × List Char) :=
  if startsWithCI "substitution,".data l then
    let l1 := (l.drop 13).dropWhile isPySpace
    let run := l1.takeWhile isTeamNameChar
    if run.length < 1 then none
    else subPat1TeamSplit run.length l1 run
  else none

/-- Search of parser.SUB_PAT_2 (case-insensitive): a one-or-two-word name
(word boundary before), whitespace, the comes-on or on literal,
whitespace, the for literal, whitespace, and a second name.  Returns the
(incoming, outgoing) groups of the leftmost match. -/
def subPat2At (l : List Char) : Option (List Char × List Char) :=
  let tryCont : List Char → Option (List Char) := fun r =>
    let ws := r.takeWhile isPySpace
    if ws.length < 1 then none
    else
      let r1 := r.drop ws.length
      let afterKw : Option (List Char) :=
        if startsWithCI "comes on".data r1 then some (r1.drop 8)
        else if startsWithCI "on".data r1 then some (r1.drop 2)
        else none
      match afterKw with
      | none => none
      | some r2 =>
        let ws2 := r2.takeWhile isPySpace
        if ws2.length < 1 then none
        else
          let r3 := r2.drop ws2.length
          if startsWithCI "for".data r3 then
            let r4 := r3.drop 3
            let ws3 := r4.takeWhile isPySpace
            if ws3.length < 1 then none
            else
              match nameCands true (r4.drop ws3.length) with
              | (nm2, _) :: _ => some nm2
              | [] => none
          else none
  match (nameCands true l).filterMap (fun p =>
      match tryCont p.2 with
      | some nm2 => some (p.1, nm2)
      | none => none) with
  | r :: _ => some r
  | [] => none

def subPat2Search : Option Char → List Char → Option (List Char × List Char)
  | _, [] => none
  | prev, l@(c :: rest) =>
    (if boundaryBefore prev then subPat2At l else none).orElse
      (fun _ => subPat2Search (some c) rest)

/-- A keyword occurrence with word boundaries on both sides
(case-insensitive), as required by the card patterns. -/
def kwBoundedAt (kw : List Char) (prev : Option Char) (l : List Char) : Bool :=
  boundaryBefore prev && startsWithCI kw l && boundaryAfter (l.drop kw.length)

/-- After a card keyword, the lazy gap of the card patterns: the earliest
following one-or-two-word name with word boundaries (case-insensitive
classes), without crossing a newline. -/
def nameAfterGap : Option Char → List Char → Option (List Char)
  | _, [] => none
  | prev, l@(c :: rest) =>
    if c == '\n' then none
    else
      (if boundaryBefore prev then
        match (nameCands true l).filter (fun p => boundaryAfter p.2) with
        | r :: _ => some r.1
        | [] => none
      else none).orElse (fun _ => nameAfterGap (some c) rest)

/-- Search of a card pattern: one of the keywords (alternation order),
bounded, followed lazily by a name.  Used for YC_PAT_1 and RC_PAT_1. -/
def cardSearch (kws : List (List Char)) : Option Char → List Char → Option (List Char)
  | _, [] => none
  | prev, l@(c :: rest) =>
    (match kws.filter (fun kw => kwBoundedAt kw prev l) with
     | kw :: _ =>
       match nameAfterGap (some (l.getD (kw.length - 1) c)) (l.drop kw.length) with
       | some nm => some nm
       | none => none
     | [] => none).orElse (fun _ => cardSearch kws (some c) rest)

/-- After the second-yellow keyword of RC_PAT_2, the lazy gap up to a
bounded to-literal followed by whitespace and a name. -/
def toNameAfterGap : Option Char → List Char → Option (List Char)
  | _, [] => none
  | prev, l@(c :: rest) =>
    if c == '\n' then none
    else
      (if boundaryBefore prev && startsWithCI "to".data l then
        let r := l.drop 2
        let ws := r.takeWhile isPySpace
        if ws.length < 1 then none
        else
          match (nameCands true (r.drop ws.length)).filter (fun p => boundaryAfter p.2) with
          | p :: _ => some p.1
          | [] => none
      else none).orElse (fun _ => toNameAfterGap (some c) rest)

/-- Search of parser.RC_PAT_2: the second-yellow literal bounded, then
lazily a to-literal and the booked player's name. -/
def rcPat2Search : Option Char → List Char → Option (List Char)
  | _, [] => none
  | prev, l@(c :: rest) =>
    (if kwBoundedAt "second yellow card".data prev l then
      toNameAfterGap (some 'd') (l.drop 18)
    else none).orElse (fun _ => rcPat2Search (some c) rest)

/-- Match of parser.CORNER_PAT or OFFSIDE_PAT at position zero
(case-insensitive): the literal, optional whitespace, and the greedy
team-class run as the group. -/
def teamAfterLiteral (lit : List Char) (l : List Char) : Option (List Char) :=
  if startsWithCI lit l then
    let l1 := (l.drop lit.length).dropWhile isPySpace
    let run := l1.takeWhile isTeamNameChar
    if run.length < 1 then none else some run
  else none

/-- Match of parser.GOAL_PAT at one position (case-insensitive): the
goal-bang literal, anything up to the first dot, then a one-or-two-word
scorer name and a parenthesized team. -/
def goalPatAt (l : List Char) : Option (List Char × List Char) :=
  if startsWithCI "goal!".data l then
    let l1 := l.drop 5
    let gap := l1.takeWhile (fun c => !(c == '.'))
    match l1.drop gap.length with
    | '.' :: l2 =>
      match (nameCands true (l2.dropWhile isPySpace)).filterMap (fun p =>
          match (p.2.dropWhile isPySpace) with
          | '(' :: l3 =>
            let team := l3.takeWhile (fun d => !(d == ')'))
            if team.length < 1 then none
            else
              match l3.drop team.length with
              | ')' :: _ => some (p.1, team)
              | _ => none
          | _ => none) with
      | r :: _ => some r
      | [] => none
    | _ => none
  else none

def goalPatSearch : List Char → Option (List Char × List Char)
  | [] => none
  | l@(_ :: rest) =>
    (goalPatAt l).orElse (fun _ => goalPatSearch rest)

/-- Search of parser.ASSIST_PAT (case-insensitive): the assisted-by
literal at a word boundary, whitespace, and a bounded name. -/
def assistSearch : Option Char → List Char → Option (List Char)
  | _, [] => none
  | prev, l@(c :: rest) =>
    (if boundaryBefore prev && startsWithCI "assisted by".data l then
      let r := l.drop 11
      let ws := r.takeWhile isPySpace
      if ws.length < 1 then none
      else
        match (nameCands true (r.drop ws.length)).filter (fun p => boundaryAfter p.2) with
        | p :: _ => some p.1
        | [] => none
    else none).orElse (fun _ => assistSearch (some c) rest)

/-- One row update of the longest-common-subsequence table. -/
def lcsRowStep (c : Char) : List Char → List Nat → Nat → Nat → List Nat
  | [], _, _, _ => []
  | _ :: _, [], _, _ => []
  | b :: bs, p :: ps, diag, left =>
    let v := if c == b then diag + 1 else max left p
    v :: lcsRowStep c bs ps p v

/-- Length of the longest common subsequence of two character lists
(row-by-row dynamic programming). -/
def lcsLen (a b : List Char) : Nat :=
  (a.foldl
    (fun row c =>
      match row with
      | d :: ps => 0 :: lcsRowStep c b ps d 0
      | [] => [])
    (List.replicate (b.length + 1) 0)).getLastD 0

/-- Python str.split with no separator: whitespace-run splitting with
empties dropped (fuel-driven scan). -/
def pySplitWsGo : Nat → List Char → List (List Char)
  | 0, _ => []
  | _ + 1, [] => []
  | f + 1, l =>
    let l1 := l.dropWhile isPySpace
    match l1.takeWhile (fun c => !(isPySpace c)) with
    | [] => []
    | w => w :: pySplitWsGo f (l1.drop w.length)

def pySplitWs (l : List Char) : List (List Char) := pySplitWsGo (l.length + 1) l

/-- Lexicographic comparison of character lists by code point (Python
string ordering for sorted). -/
def lexLe : List Char → List Char → Bool
  | [], _ => true
  | _ :: _, [] => false
  | x :: xs, y :: ys =>
    if x.toNat < y.toNat then true
    else if y.toNat < x.toNat then false
    else lexLe xs ys

/-- Stable insertion sort by the lexicographic order (agrees with Python
sorted on string lists). -/
def insSorted (x : List Char) : List (List Char) → List (List Char)
  | [] => [x]
  | y :: ys => if lexLe x y then x :: y :: ys else y :: insSorted x ys

def sortLex : List (List Char) → List (List Char)
  | [] => []
  | x :: xs => insSorted x (sortLex xs)

/-- The token-sort preprocessing of fuzz.token_sort_ratio: split on
whitespace, sort, join with single spaces. -/
def tokenSortJoin (l : List Char) : List Char :=
  List.intercalate [' '] (sortLex (pySplitWs l))

/-- The token-sort score of rapidfuzz as an exact fraction: the
normalized indel similarity of the token-sorted strings on a 0 to 100
scale, represented as numerator and denominator (two empty strings score
100). -/
def tokenSortScore (a b : List Char) : Nat × Nat :=
  let sa := tokenSortJoin a
  let sb := tokenSortJoin b
  let tot := sa.length + sb.length
  if tot == 0 then (100, 1) else (200 * lcsLen sa sb, tot)

/-- Strict comparison of two score fractions. -/
def scoreGt (x y : Nat × Nat) : Bool := y.1 * x.2 < x.1 * y.2

/-- Whether a score fraction meets the acceptance cutoff. -/
def scoreGe (x : Nat × Nat) (cut : Nat) : Bool := cut * x.2 ≤ x.1

/-- The best-match fold of process.extractOne: scan the choices in order,
keep the strictly best score (ties keep the earlier index).  The state is
(best index, best score, current index). -/
def extractOneIdx (q : List Char) : List (List Char) → Option (Nat × (Nat × Nat))
  | [] => none
  | c0 :: rest =>
    let final := rest.foldl
      (fun (st : Nat × (Nat × Nat) × Nat) c =>
        let sc := tokenSortScore q c
        let next := st.2.2 + 1
        if scoreGt sc st.2.1 then (next, sc, next) else (st.1, st.2.1, next))
      (0, tokenSortScore q c0, 0)
    some (final.1, final.2.1)

/-- Source parser.fuzzy_in: accent-strip the query and every roster
entry, take the best token-sort match, and return the original roster
entry when the score reaches the cutoff (86 by default). -/
def fuzzyIn (name : List Char) (roster : List (List Char)) (cut : Nat) : Option (List Char) :=
  if name.isEmpty || roster.isEmpty then none
  else
    match extractOneIdx (stripAccentsL name) (roster.map stripAccentsL) with
    | some (idx, sc) => if scoreGe sc cut then some (roster.getD idx []) else none
    | none => none

/-- First roster entry whose normalized form is a substring of the
normalized line (the first tier of detect_player). -/
def rosterSubHit (low : List Char) : List (List Char) → Option (List Char)
  | [] => none
  | nm :: rest =>
    if containsSubL (normL nm) low then some nm else rosterSubHit low rest

/-- The fuzzy fallback of detect_player over the capitalized tokens. -/
def capsFuzzy (r1 r2 : List (List Char)) : List (List Char) → Option (List Char × Nat)
  | [] => none
  | tok :: rest =>
    match fuzzyIn tok r1 86 with
    | some _ => some (tok, 1)
    | none =>
      match fuzzyIn tok r2 86 with
      | some _ => some (tok, 2)
      | none => capsFuzzy r1 r2 rest

/-- Source parser.detect_player: exact normalized substring over roster
one then roster two, then fuzzy matching of capitalized tokens. -/
def detectPlayer (line : List Char) (r1 r2 : List (List Char)) : Option (List Char) × Option Nat :=
  let low := normL line
  match rosterSubHit low r1 with
  | some nm => (some nm, some 1)
  | none =>
    match rosterSubHit low r2 with
    | some nm => (some nm, some 2)
    | none =>
      match capsFuzzy r1 r2 (capsFind (line.length + 1) none line) with
      | some (tok, idx) => (some tok, some idx)
      | none => (none, none)

/-- Source parser._team_idx_from_parens: walk the parenthetical matches
and return the side whose alias set hits the parenthesized team text. -/
def teamIdxFromParensList (a1 a2 : List (List Char)) : List (List Char × List Char) → Option Nat
  | [] => none
  | (_, team) :: rest =>
    let tnorm := normL team
    if a1.any (fun a => containsSubL a tnorm) then some 1
    else if a2.any (fun a => containsSubL a tnorm) then some 2
    else teamIdxFromParensList a1 a2 rest

def teamIdxFromParens (line : List Char) (a1 a2 : List (List Char)) : Option Nat :=
  teamIdxFromParensList a1 a2 (parensFind (line.length + 1) none line)

/-- Source parser.owns_event: the parenthetical team wins, then an alias
substring of the normalized line, then roster membership via
detect_player. -/
def ownsEvent (line : List Char) (a1 a2 : List (List Char)) (r1 r2 : List (List Char)) : Option Nat :=
  match teamIdxFromParens line a1 a2 with
  | some idx => some idx
  | none =>
    let low := normL line
    if a1.any (fun a => containsSubL a low) then some 1
    else if a2.any (fun a => containsSubL a low) then some 2
    else (detectPlayer line r1 r2).2

/-- Source parser.parse_goal: the structured goal pattern (scorer and
parenthesized team resolved against the alias sets) and the optional
assist capture.  The minute computed by the source function is dead: it
does not enter the returned triple. -/
def parseGoal (line : List Char) (a1 a2 : List (List Char)) :
    Option (List Char) × Option Nat × Option (List Char) :=
  match goalPatSearch line with
  | some (scorer, team) =>
    let lowt := normL team
    let idx : Option Nat :=
      if a1.any (fun a => containsSubL a lowt) then some 1
      else if a2.any (fun a => containsSubL a lowt) then some 2
      else none
    (some scorer, idx, assistSearch none line)
  | none => (none, none, assistSearch none line)

/-- An emitted event record (fields t, etype, player, note of the
source dictionaries). -/
structure Event where
  t : String
  etype : String
  player : Option String
  note : String
deriving DecidableEq, Repr

def mkEv (minute etype : List Char) (player : Option (List Char)) (note : List Char) : Event :=
  ⟨⟨minute⟩, ⟨etype⟩, player.map (fun p => (⟨p⟩ : String)), ⟨note⟩⟩

/-- The label detachment at the head of the classifier loop body: the
stripped label text (if any) and the remaining line. -/
def stripLabel (line : List Char) : Option (List Char) × List Char :=
  match labelMatch line with
  | some (g, rest) => (some (trimL g), rest)
  | none => (none, line)

/-- The QUOTE events extracted from the label-stripped line. -/
def quoteEvents (minute lw : List Char) : List Event :=
  (quotesFind (lw.length + 1) lw).map (fun q => mkEv minute "QUOTE".data none (trimL q))

/-- The our-side test of the source loop: ours is team one when the
designator named team one, team two otherwise. -/
def oursOf (ourIs1 : Bool) (idx : Option Nat) : Bool :=
  if ourIs1 then idx == some 1 else idx == some 2

def usOpp (b : Bool) : List Char := if b then "US".data else "OPP".data

/-- The base-type selector of the generic attempt branch, in source
order: save, block, miss, foul, free kick. -/
def attemptEtype (low : List Char) : Option (List Char) :=
  if anyKw kwSave low then some "SAVE".data
  else if anyKw kwBlock low then some "BLOCK".data
  else if anyKw kwMiss low then some "MISS".data
  else if anyKw kwFoul low then some "FOUL".data
  else if anyKw kwFreekick low then some "FREEKICK".data
  else none

/-- The note of a generic attempt event: the stripped label folded back
in brackets when one was present. -/
def noteWithLabel (label : Option (List Char)) (lw : List Char) : List Char :=
  match label with
  | none => lw
  | some lb => (('[' :: lb) ++ (']' :: ' ' :: [])) ++ lw

/-- The branch cascade of parse_events_unbiased for one line, in source
order, producing at most one event as (etype, player, note); the resolved
minute does not influence any branch (it only stamps the event), so it is
not a parameter.  The label, the label-stripped line and the original
line are passed as the source locals label, line_wo_label and line. -/
def classifyRest (a1 a2 : List (List Char)) (r1 r2 : List (List Char)) (ourIs1 : Bool)
    (label : Option (List Char)) (lw line : List Char) :
    Option (List Char × Option (List Char) × List Char) :=
  let low := normL lw
  if anyKw kwKo low then some ("KICK_OFF".data, none, line)
  else if anyKw kwHt low || anyKw kwFt low then none
  else if containsSubL "delay in match".data low then some ("DELAY".data, none, line)
  else if containsSubL "delay over".data low then some ("RESUME".data, none, line)
  else if containsSubL "added time".data low || containsSubL "has announced".data low then
    some ("ADDED_TIME".data, none, line)
  else
    match subPat1Match lw with
    | some (team, onp, offp) =>
      let team := trimL team
      let onp := trimL onp
      let offp := trimL offp
      let idx : Option Nat :=
        if a1.contains (normL team) then some 1
        else if a2.contains (normL team) then some 2
        else none
      some ("SUB_".data ++ usOpp (oursOf ourIs1 idx), some onp,
        ((onp ++ " on for ".data) ++ offp) ++ (". ".data ++ lw))
    | none =>
      match subPat2Search none lw with
      | some (onp0, offp0) =>
        let onp := trimL onp0
        let offp := trimL offp0
        let idx := (detectPlayer lw r1 r2).2
        some ("SUB_".data ++ usOpp (oursOf ourIs1 idx), some onp,
          ((onp ++ " on for ".data) ++ offp) ++ (". ".data ++ lw))
      | none =>
        if anyKw kwGoal low then
          let g := parseGoal line a1 a2
          let idx : Nat :=
            match g.2.1 with
            | some i => i
            | none =>
              match ownsEvent line a1 a2 r1 r2 with
              | some i => i
              | none => 1
          let player :=
            match g.1 with
            | some s => some s
            | none => (detectPlayer line r1 r2).1
          some (if idx == 1 then "OUR_GOAL".data else "OPP_GOAL".data, player, line)
        else if anyKw kwRc low then
          let nm : Option (List Char) :=
            match rcPat2Search none line with
            | some n => some n
            | none => cardSearch ["red card".data, "sent off".data, "dismissal".data] none line
          let who : Nat :=
            match teamIdxFromParens line a1 a2 with
            | some i => i
            | none =>
              match ownsEvent line a1 a2 r1 r2 with
              | some i => i
              | none => 1
          some (if who == 1 then "RC_US".data else "RC_OPP".data, nm, line)
        else if anyKw kwYc low then
          if containsSubL "second yellow card".data low then none
          else
            let nm : Option (List Char) :=
              match parensFind (line.length + 1) none line with
              | (n, _) :: _ => some n
              | [] => cardSearch ["yellow card".data, "booked".data] none line
            let who : Nat :=
              match teamIdxFromParens line a1 a2 with
              | some i => i
              | none =>
                match ownsEvent line a1 a2 r1 r2 with
                | some i => i
                | none => 1
            some (if who == 1 then "YC_US".data else "YC_OPP".data, nm, line)
        else
          match teamAfterLiteral "corner,".data lw with
          | some teamRun =>
            let team := trimL teamRun
            let idx : Option Nat :=
              if a1.contains (normL team) then some 1
              else if a2.contains (normL team) then some 2
              else none
            some ("CORNER_".data ++ usOpp (oursOf ourIs1 idx), none, lw)
          | none =>
            match teamAfterLiteral "offside,".data lw with
            | some teamRun =>
              let team := trimL teamRun
              let idx : Option Nat :=
                if a1.contains (normL team) then some 1
                else if a2.contains (normL team) then some 2
                else none
              some ("OFFSIDE_".data ++ usOpp (oursOf ourIs1 idx), none, lw)
            | none =>
              if anyKw kwDisallowed low then
                let idx := ownsEvent lw a1 a2 r1 r2
                some ("DISALLOWED_GOAL_".data ++ usOpp (oursOf ourIs1 idx), none, lw)
              else
                match attemptEtype low with
                | some et =>
                  let d := detectPlayer lw r1 r2
                  let idx : Option Nat :=
                    match d.2 with
                    | some i => some i
                    | none => ownsEvent lw a1 a2 r1 r2
                  let ours := oursOf ourIs1 idx
                  let mapped : List Char :=
                    if et == "GOAL".data then
                      if ours then "OUR_GOAL".data else "OPP_GOAL".data
                    else if et == "MISS".data then
                      if ours then "OUR_BIG_CHANCE_MISSED".data else "OPP_BIG_CHANCE_MISSED".data
                    else (et ++ ['_']) ++ usOpp ours
                  some (mapped, d.1, noteWithLabel label lw)
                | none =>
                  match label with
                  | some _ => some ("LABEL".data, none, lw)
                  | none => none

/-- The classifier body of parse_events_unbiased for one line once a
nonempty minute has been resolved: label stripping, quote events, then
the ordered branch cascade of the source stamped with the minute. -/
def classifyLine (a1 a2 : List (List Char)) (r1 r2 : List (List Char)) (ourIs1 : Bool)
    (minute : List Char) (line : List Char) : List Event :=
  let label := (stripLabel line).1
  let lw := (stripLabel line).2
  quoteEvents minute lw ++
    (match classifyRest a1 a2 r1 r2 ourIs1 label lw line with
     | some (et, pl, note) => [mkEv minute et pl note]
     | none => [])

/-- One line of the parse_events_unbiased loop: minute resolution with
the Python falsy guard, state update, classification. -/
def processLine (a1 a2 : List (List Char)) (r1 r2 : List (List Char)) (ourIs1 : Bool)
    (cur : Option (List Char)) (line : List Char) : Option (List Char) × List Event :=
  match extractMinute line cur with
  | none => (cur, [])
  | some m =>
    if m.isEmpty then (cur, [])
    else (some m, classifyLine a1 a2 r1 r2 ourIs1 m line)

/-- The loop of parse_events_unbiased over the non-blank stripped lines. -/
def eventsLoop (a1 a2 : List (List Char)) (r1 r2 : List (List Char)) (ourIs1 : Bool) :
    Option (List Char) → List (List Char) → List Event
  | _, [] => []
  | cur, ln :: rest =>
    let r := processLine a1 a2 r1 r2 ourIs1 cur ln
    r.2 ++ eventsLoop a1 a2 r1 r2 ourIs1 r.1 rest

/-- Source parser.parse_events_unbiased. -/
def parseEventsUnbiased (text : String) (team1 : String) (roster1 : List String)
    (team2 : String) (roster2 : List String) (ourTeam : String) : List Event :=
  let a1 := buildTeamAliases team1.data
  let a2 := buildTeamAliases team2.data
  let ourIs1 := a1.contains (normL ourTeam.data)
  let lines := ((splitOnNL [] text.data).map trimL).filter (fun l => !l.isEmpty)
  eventsLoop a1 a2 (roster1.map String.data) (roster2.map String.data) ourIs1 none lines

/-! ## Theorems -/

/-- Claim C9: the event-classification pipeline is deterministic: for a
fixed input text, team names, rosters and our-team designator, two
invocations of the classifier produce the identical ordered event list.
The embedding is a pure function of exactly these inputs (the source
keeps no state across calls), so the two runs are definitionally equal. -/
theorem parse_events_deterministic (text team1 team2 ourTeam : String)
    (r1 r2 : List String) :
    parseEventsUnbiased text team1 r1 team2 r2 ourTeam =
      parseEventsUnbiased text team1 r1 team2 r2 ourTeam := rfl

/-- Claim C10: the classifier decides the our-side solely by exact
membership of the normalized our-team string in team one's alias list;
any designator outside that list (including team two's own name) yields
the identical output as passing team two's name, with no error path. -/
theorem our_team_designator_membership_only (text team1 team2 : String)
    (r1 r2 : List String) (x : String)
    (hx : (buildTeamAliases team1.data).contains (normL x.data) = false)
    (h2 : (buildTeamAliases team1.data).contains (normL team2.data) = false) :
    parseEventsUnbiased text team1 r1 team2 r2 x =
      parseEventsUnbiased text team1 r1 team2 r2 team2 := by
  simp only [parseEventsUnbiased, hx, h2]

/-- Witness for C10 at a concrete input: an unrelated designator and the
team-two designator produce the same event list. -/
theorem our_team_designator_membership_only_witness :
    (buildTeamAliases "Arsenal".data).contains (normL "Whatever".data) = false ∧
    (buildTeamAliases "Arsenal".data).contains (normL "Leeds".data) = false ∧
    parseEventsUnbiased "[MIN=20] Great save by the keeper to deny Saka!"
      "Arsenal" ["Saka"] "Leeds" ["Smith"] "Whatever" =
    parseEventsUnbiased "[MIN=20] Great save by the keeper to deny Saka!"
      "Arsenal" ["Saka"] "Leeds" ["Smith"] "Leeds" :=
  ⟨by decide, by decide,
    our_team_designator_membership_only "[MIN=20] Great save by the keeper to deny Saka!"
      "Arsenal" "Leeds" ["Saka"] ["Smith"] "Whatever" (by decide) (by decide)⟩

/-- Claim C1 (code bug): on a goal line whose resolved owning team is
team two and whose externally designated our-team is also team two, the
classifier still emits OPP_GOAL: the goal branch tests the owning index
against the fixed team index one and ignores the our-team designator,
unlike the substitution, corner, offside, disallowed and attempt
branches. -/
theorem goal_label_fixed_to_team1 :
    (buildTeamAliases "Chelsea".data).contains (normL "Chelsea".data) = true ∧
    (buildTeamAliases "Arsenal".data).contains (normL "Chelsea".data) = false ∧
    parseEventsUnbiased "[MIN=23] Goal! Box. Pedro (Chelsea)"
      "Arsenal" ["Saka"] "Chelsea" ["Pedro"] "Chelsea" =
      [⟨"23", "OPP_GOAL", some "Pedro", "[MIN=23] Goal! Box. Pedro (Chelsea)"⟩] := by
  refine ⟨by decide, by decide, ?_⟩
  decide

/-- Claim C5 (code bug): the canonical-name table maps the alias to the
canonical club name, yet the canonicalizer returns every name unchanged
(the source passes the un-invoked bound method str.lower as the lookup
key), so two lineup lines naming the same club through different aliases
produce two distinct teams with separate rosters. -/
theorem canon_team_alias_lookup_never_fires :
    teamAliasTable.lookup "man utd" = some "Manchester United" ∧
    canonTeam "man utd".data = "man utd".data ∧
    parseLineups ["man utd: A, B, C, D, E, F", "Manchester United: G, H, I, J, K, L"] =
      .ok ("man utd", ["A", "B", "C", "D", "E", "F"],
           "Manchester United", ["G", "H", "I", "J", "K", "L"]) := by
  refine ⟨by decide, by decide, ?_⟩
  rfl

/-- Claim C6: parse_lineups is total with exactly two outcomes: fewer
than two identified canonical team names yields the resolution error
carrying the raw candidate lines (no partial result), otherwise the
result is exactly two team-roster pairs. -/
theorem parse_lineups_two_or_error (lns : List (List Char)) :
    ((identifiedTeams lns).length < 2 → parseLineupsL lns = .error lns) ∧
    (2 ≤ (identifiedTeams lns).length →
      ∃ t1 r1 t2 r2, parseLineupsL lns = .ok ((t1, r1), (t2, r2))) := by
  constructor
  · intro h
    unfold parseLineupsL
    match hm : identifiedTeams lns with
    | [] => rfl
    | [t] => rfl
    | t1 :: t2 :: rest =>
      exfalso
      rw [hm] at h
      simp only [List.length_cons] at h
      omega
  · intro h
    unfold parseLineupsL
    match hm : identifiedTeams lns with
    | [] => rw [hm] at h; simp at h
    | [t] => rw [hm] at h; simp at h
    | t1 :: t2 :: rest =>
      exact ⟨t1.1, dedupRoster [] t1.2, t2.1, dedupRoster [] t2.2, rfl⟩

/-- Witness for C6: the error side on a candidate list identifying one
team, and the success side on one identifying two. -/
theorem parse_lineups_two_or_error_witness :
    parseLineupsL [("Arsenal: a, b".data : List Char)] = .error ["Arsenal: a, b".data] ∧
    (∃ t1 r1 t2 r2,
      parseLineupsL ["Arsenal: a, b".data, ("Leeds: c, d".data : List Char)] =
        .ok ((t1, r1), (t2, r2))) :=
  ⟨(parse_lineups_two_or_error ["Arsenal: a, b".data]).1 (by decide),
   (parse_lineups_two_or_error ["Arsenal: a, b".data, "Leeds: c, d".data]).2 (by decide)⟩

/-- Claim C4 counterexample: a team line whose comma-list has exactly
five comma-separated entries (four commas) is classified as context, not
as a lineup line, contrary to the claimed at-least-five-entries
threshold. -/
theorem frontmatter_five_entries_is_context :
    (normNames "a, b, c, d, e".data).length = 5 ∧
    extractFrontmatter ["Arsenal: a, b, c, d, e"] = (["Arsenal: a, b, c, d, e"], []) := by
  refine ⟨by decide, ?_⟩
  decide

/-- Claim C4 as amended: a front-matter line matching the team-line
shape is a lineup line exactly when its right-hand side has at least five
commas, that is at least six comma-separated entries; with four or fewer
commas it is context. -/
theorem frontmatter_lineup_iff_five_commas (lt : Option (List Char)) (ln nm rhs : List Char)
    (hm : teamLineMatch ln = some (nm, rhs)) (hne : (trimL ln).isEmpty = false) :
    fmStep lt ln =
      (if 5 ≤ commaCount rhs then some (trimL nm) else lt,
        some (decide (5 ≤ commaCount rhs), trimL ln)) ∧
    (extractFM lt [ln]).2 = (if 5 ≤ commaCount rhs then [trimL ln] else []) ∧
    (extractFM lt [ln]).1 = (if 5 ≤ commaCount rhs then [] else [trimL ln]) := by
  have hstep : fmStep lt ln =
      (if 5 ≤ commaCount rhs then some (trimL nm) else lt,
        some (decide (5 ≤ commaCount rhs), trimL ln)) := by
    unfold fmStep
    rw [hne, hm]
    by_cases h : 5 ≤ commaCount rhs <;> simp [h]
  refine ⟨hstep, ?_, ?_⟩ <;>
    · unfold extractFM
      rw [hstep]
      by_cases h : 5 ≤ commaCount rhs <;> simp [h, extractFM]

/-- Witness for the amended C4: six entries (five commas) make a lineup
line, five entries (four commas) make context. -/
theorem frontmatter_lineup_iff_five_commas_witness :
    (extractFM none ["Arsenal: a, b, c, d, e, f".data]).2 = ["Arsenal: a, b, c, d, e, f".data] ∧
    (extractFM none ["Arsenal: a, b, c, d, e".data]).1 = ["Arsenal: a, b, c, d, e".data] := by
  constructor
  · have h := frontmatter_lineup_iff_five_commas none "Arsenal: a, b, c, d, e, f".data
      "Arsenal".data "a, b, c, d, e, f".data (by decide) (by decide)
    rw [h.2.1]
    decide
  · have h := frontmatter_lineup_iff_five_commas none "Arsenal: a, b, c, d, e".data
      "Arsenal".data "a, b, c, d, e".data (by decide) (by decide)
    rw [h.2.2]
    decide

/-- Every QUOTE event produced for a line carries that line's minute. -/
theorem quoteEvents_t {ev : Event} {m lw : List Char} (h : ev ∈ quoteEvents m lw) :
    ev.t = (⟨m⟩ : String) := by
  rcases List.mem_map.1 h with ⟨q, _, rfl⟩
  rfl

/-- Every event emitted by the classifier body for a line carries the
minute that was resolved for that line. -/
theorem classifyLine_t (a1 a2 r1 r2 : List (List Char)) (o : Bool) (m line : List Char)
    (ev : Event) (hev : ev ∈ classifyLine a1 a2 r1 r2 o m line) : ev.t = (⟨m⟩ : String) := by
  simp only [classifyLine] at hev
  rcases List.mem_append.1 hev with h | h
  · exact quoteEvents_t h
  · rcases hc : classifyRest a1 a2 r1 r2 o (stripLabel line).1 (stripLabel line).2 line with
      _ | ⟨et, pl, note⟩ <;> rw [hc] at h
    · simp at h
    · simp only [List.mem_singleton] at h
      subst h
      rfl

/-- Claim C7: minute resolution follows the strict precedence (a) split
stoppage pair, (b) leading tag, (c) bare prefix, (d) leftmost tag, (e)
carried minute (the implementation equals the spec-ordered choice chain);
a line on which nothing resolves (or the resolved value is empty) yields
no events and leaves the carried minute unchanged; on success the carried
minute becomes the resolved value; and every emitted event carries a
nonempty minute. -/
theorem minute_resolution_and_carry :
    (∀ l fb, extractMinute l fb = specMinute l fb) ∧
    (∀ a1 a2 r1 r2 o cur line,
      (extractMinute line cur = none ∨ extractMinute line cur = some []) →
        processLine a1 a2 r1 r2 o cur line = (cur, [])) ∧
    (∀ a1 a2 r1 r2 o cur line m, extractMinute line cur = some m → m ≠ [] →
        (processLine a1 a2 r1 r2 o cur line).1 = some m) ∧
    (∀ a1 a2 r1 r2 o cur line ev,
      ev ∈ (processLine a1 a2 r1 r2 o cur line).2 → ev.t ≠ "") := by
  refine ⟨?_, ?_, ?_, ?_⟩
  · intro l fb
    unfold extractMinute specMinute
    cases hl : l.isEmpty
    · cases h1 : searchAddedPair l
      · cases h2 : matchStartMin l
        · cases h3 : matchBareMinute l
          · cases h4 : findFirstMinTag l <;>
              simp [Option.orElse, h1, h2, h3, h4]
          · simp [Option.orElse, h1, h2, h3]
        · simp [Option.orElse, h1, h2]
      · simp [Option.orElse, h1]
    · have : l = [] := List.isEmpty_iff.1 hl
      subst this
      rfl
  · intro a1 a2 r1 r2 o cur line h
    rcases h with h | h <;> simp [processLine, h]
  · intro a1 a2 r1 r2 o cur line m h hm
    have hne : m.isEmpty = false := by
      cases m
      · exact absurd rfl hm
      · rfl
    simp [processLine, h, hne]
  · intro a1 a2 r1 r2 o cur line ev hev
    unfold processLine at hev
    split at hev
    · simp at hev
    · rename_i m hm
      split at hev
      · simp at hev
      · rename_i hne
        have ht := classifyLine_t a1 a2 r1 r2 o m line ev hev
        rw [ht]
        intro hcon
        apply hne
        have : m = [] := by
          have := congrArg String.data hcon
          simpa using this
        simp [this]

/-- Witness for C7 at concrete inputs: the chain equality, the skip of a
minute-less line, the carried-minute update, and a nonempty minute on an
emitted event. -/
theorem minute_resolution_and_carry_witness :
    extractMinute "45+2' Smith".data none = specMinute "45+2' Smith".data none ∧
    processLine [] [] [] [] true none "no marker here".data = (none, []) ∧
    (processLine [] [] [] [] true none "[MIN=23] Goal!".data).1 = some "23".data ∧
    (⟨"23", "OUR_GOAL", none, "[MIN=23] Goal!"⟩ : Event).t ≠ "" := by
  refine ⟨minute_resolution_and_carry.1 "45+2' Smith".data none,
    minute_resolution_and_carry.2.1 [] [] [] [] true none "no marker here".data
      (Or.inl (by decide)),
    minute_resolution_and_carry.2.2.1 [] [] [] [] true none "[MIN=23] Goal!".data
      "23".data (by decide) (by decide),
    minute_resolution_and_carry.2.2.2 [] [] [] [] true none "[MIN=23] Goal!".data
      ⟨"23", "OUR_GOAL", none, "[MIN=23] Goal!"⟩ (by decide)⟩

/-- Claim C2 counterexample: a disallowed-goal line on which no team can
be resolved is emitted as DISALLOWED_GOAL_OPP although our team is team
one, contradicting the claimed default to team one (which would give the
US suffix). -/
theorem disallowed_no_default_counterexample :
    (buildTeamAliases "Arsenal".data).contains (normL "Arsenal".data) = true ∧
    parseEventsUnbiased "[MIN=10] ball in the net, ruled out."
      "Arsenal" ["Saka"] "Leeds" ["Bamford"] "Arsenal" =
      [⟨"10", "DISALLOWED_GOAL_OPP", none, "[MIN=10] ball in the net, ruled out."⟩] := by
  refine ⟨by decide, ?_⟩
  decide

/-- Claim C2 as amended: in the disallowed-goal branch and the generic
attempt branch, when neither the parenthetical, nor an alias substring,
nor roster membership resolves a team, ownership remains unresolved and
the emitted suffix is the not-our-team one (OPP, or the opponent
big-chance form for a miss) for every value of the our-team designator;
there is no default to team one in these branches. -/
theorem unresolved_ownership_yields_opp
    (a1 a2 r1 r2 : List (List Char)) (ourIs1 : Bool) (label : Option (List Char))
    (lw line : List Char)
    (hko : anyKw kwKo (normL lw) = false)
    (hht : anyKw kwHt (normL lw) = false)
    (hft : anyKw kwFt (normL lw) = false)
    (hd1 : containsSubL "delay in match".data (normL lw) = false)
    (hd2 : containsSubL "delay over".data (normL lw) = false)
    (ha1 : containsSubL "added time".data (normL lw) = false)
    (ha2 : containsSubL "has announced".data (normL lw) = false)
    (hs1 : subPat1Match lw = none)
    (hs2 : subPat2Search none lw = none)
    (hg : anyKw kwGoal (normL lw) = false)
    (hrc : anyKw kwRc (normL lw) = false)
    (hyc : anyKw kwYc (normL lw) = false)
    (hcor : teamAfterLiteral "corner,".data lw = none)
    (hoff : teamAfterLiteral "offside,".data lw = none)
    (howns : ownsEvent lw a1 a2 r1 r2 = none) :
    (anyKw kwDisallowed (normL lw) = true →
      classifyRest a1 a2 r1 r2 ourIs1 label lw line =
        some ("DISALLOWED_GOAL_OPP".data, none, lw)) ∧
    (∀ et, anyKw kwDisallowed (normL lw) = false →
      attemptEtype (normL lw) = some et → et ≠ "GOAL".data →
      detectPlayer lw r1 r2 = (none, none) →
      classifyRest a1 a2 r1 r2 ourIs1 label lw line =
        some ((if et == "MISS".data then "OPP_BIG_CHANCE_MISSED".data
               else (et ++ ['_']) ++ "OPP".data),
              none, noteWithLabel label lw)) := by
  have hours : oursOf ourIs1 none = false := by
    cases ourIs1 <;> simp [oursOf]
  constructor
  · intro hdis
    simp only [classifyRest, hko, hht, hft, hd1, hd2, ha1, ha2, hs1, hs2, hg, hrc, hyc,
      hcor, hoff, hdis, howns, hours, Bool.or_self, Bool.false_or, Bool.or_false,
      if_false, if_true, usOpp]
    rfl
  · intro et hdis het hetg hdp
    have hetgb : (et == "GOAL".data) = false := by
      cases h : et == "GOAL".data
      · rfl
      · exact absurd (by simpa using h) hetg
    simp only [classifyRest, hko, hht, hft, hd1, hd2, ha1, ha2, hs1, hs2, hg, hrc, hyc,
      hcor, hoff, hdis, het, hdp, howns, hours, hetgb, Bool.or_self, Bool.false_or,
      Bool.or_false, if_false, if_true, usOpp]
    cases h : et == "MISS".data <;> simp [h]

/-- Witness for the amended C2: both branches at concrete unresolvable
lines, for both values of the designator. -/
theorem unresolved_ownership_yields_opp_witness :
    classifyRest (buildTeamAliases "Arsenal".data) (buildTeamAliases "Leeds".data)
      ["Saka".data] ["Bamford".data] true none
      "[MIN=10] ball in the net, ruled out.".data
      "[MIN=10] ball in the net, ruled out.".data =
      some ("DISALLOWED_GOAL_OPP".data, none, "[MIN=10] ball in the net, ruled out.".data) ∧
    classifyRest (buildTeamAliases "Arsenal".data) (buildTeamAliases "Leeds".data)
      ["Saka".data] ["Bamford".data] true none
      "[MIN=11] a low drive, attempt saved.".data
      "[MIN=11] a low drive, attempt saved.".data =
      some ("SAVE_OPP".data, none, "[MIN=11] a low drive, attempt saved.".data) :=
  ⟨(unresolved_ownership_yields_opp (buildTeamAliases "Arsenal".data)
      (buildTeamAliases "Leeds".data) ["Saka".data] ["Bamford".data] true none
      "[MIN=10] ball in the net, ruled out.".data
      "[MIN=10] ball in the net, ruled out.".data
      (by decide) (by decide) (by decide) (by decide) (by decide) (by decide) (by decide)
      (by decide) (by decide) (by decide) (by decide) (by decide) (by decide) (by decide)
      (by decide)).1 (by decide),
   (unresolved_ownership_yields_opp (buildTeamAliases "Arsenal".data)
      (buildTeamAliases "Leeds".data) ["Saka".data] ["Bamford".data] true none
      "[MIN=11] a low drive, attempt saved.".data
      "[MIN=11] a low drive, attempt saved.".data
      (by decide) (by decide) (by decide) (by decide) (by decide) (by decide) (by decide)
      (by decide) (by decide) (by decide) (by decide) (by decide) (by decide) (by decide)
      (by decide)).2 "SAVE".data (by decide) (by decide) (by decide) (by decide)⟩

/-- Card event types of the closed vocabulary. -/
def isCardEtype (s : String) : Bool :=
  s == "YC_US" || s == "YC_OPP" || s == "RC_US" || s == "RC_OPP"

/-- Every QUOTE event produced for a line has the QUOTE type. -/
theorem quoteEvents_etype {ev : Event} {m lw : List Char} (h : ev ∈ quoteEvents m lw) :
    ev.etype = "QUOTE" := by
  rcases List.mem_map.1 h with ⟨q, _, rfl⟩
  rfl

/-- Claim C8 counterexample: a line containing the second-yellow-card
phrase together with a goal keyword (with a resolvable minute) is
consumed by the earlier goal branch: it emits a goal event and no card
event at all, so it is not classified exactly once as a red card. -/
theorem second_yellow_goal_keyword_counterexample :
    containsSubL "second yellow card".data
      (normL "55' second yellow card to smith after he scores".data) = true ∧
    parseEventsUnbiased "55' second yellow card to smith after he scores"
      "Arsenal" ["Kane"] "Leeds" ["Haaland"] "Arsenal" =
      [⟨"55", "OUR_GOAL", none, "55' second yellow card to smith after he scores"⟩] ∧
    ([(⟨"55", "OUR_GOAL", none,
        "55' second yellow card to smith after he scores"⟩ : Event)].filter
      (fun e => isCardEtype e.etype)).length = 0 := by
  refine ⟨by decide, ?_, by decide⟩
  decide

/-- Claim C8 as amended: a line with a second-yellow-card phrase and a
resolvable minute that is not consumed by an earlier branch (state,
substitution or goal) produces exactly one card event, a red card, and
never a yellow card. -/
theorem second_yellow_classified_once_as_red
    (a1 a2 r1 r2 : List (List Char)) (o : Bool) (m line : List Char)
    (hko : anyKw kwKo (normL (stripLabel line).2) = false)
    (hht : anyKw kwHt (normL (stripLabel line).2) = false)
    (hft : anyKw kwFt (normL (stripLabel line).2) = false)
    (hd1 : containsSubL "delay in match".data (normL (stripLabel line).2) = false)
    (hd2 : containsSubL "delay over".data (normL (stripLabel line).2) = false)
    (ha1 : containsSubL "added time".data (normL (stripLabel line).2) = false)
    (ha2 : containsSubL "has announced".data (normL (stripLabel line).2) = false)
    (hs1 : subPat1Match (stripLabel line).2 = none)
    (hs2 : subPat2Search none (stripLabel line).2 = none)
    (hg : anyKw kwGoal (normL (stripLabel line).2) = false)
    (hsyc : containsSubL "second yellow card".data (normL (stripLabel line).2) = true) :
    ((classifyLine a1 a2 r1 r2 o m line).filter (fun e => isCardEtype e.etype)).length = 1 ∧
    (∀ e ∈ classifyLine a1 a2 r1 r2 o m line, isCardEtype e.etype = true →
      e.etype = "RC_US" ∨ e.etype = "RC_OPP") ∧
    (∀ e ∈ classifyLine a1 a2 r1 r2 o m line, e.etype ≠ "YC_US" ∧ e.etype ≠ "YC_OPP") := by
  have hrc : anyKw kwRc (normL (stripLabel line).2) = true := by
    simp [anyKw, kwRc, hsyc]
  have hrest : ∃ nm, classifyRest a1 a2 r1 r2 o (stripLabel line).1 (stripLabel line).2 line =
      some ((if (match teamIdxFromParens line a1 a2 with
                 | some i => i
                 | none =>
                   match ownsEvent line a1 a2 r1 r2 with
                   | some i => i
                   | none => 1) == 1 then "RC_US".data else "RC_OPP".data), nm, line) := by
    refine ⟨?_, ?_⟩
    · exact
        match rcPat2Search none line with
        | some n => some n
        | none => cardSearch ["red card".data, "sent off".data, "dismissal".data] none line
    · simp only [classifyRest, hko, hht, hft, hd1, hd2, ha1, ha2, hs1, hs2, hg, hrc,
        Bool.or_self, Bool.false_or, Bool.or_false, if_false, if_true]
      rfl
  rcases hrest with ⟨nm, hrest⟩
  have hquotes : ∀ e ∈ quoteEvents m (stripLabel line).2, isCardEtype e.etype = false := by
    intro e he
    rw [quoteEvents_etype he]
    rfl
  have hcl : classifyLine a1 a2 r1 r2 o m line =
      quoteEvents m (stripLabel line).2 ++
        [mkEv m (if (match teamIdxFromParens line a1 a2 with
                 | some i => i
                 | none =>
                   match ownsEvent line a1 a2 r1 r2 with
                   | some i => i
                   | none => 1) == 1 then "RC_US".data else "RC_OPP".data) nm line] := by
    simp only [classifyLine, hrest]
  set who := (match teamIdxFromParens line a1 a2 with
              | some i => i
              | none =>
                match ownsEvent line a1 a2 r1 r2 with
                | some i => i
                | none => 1) with hwho
  have hfq : (quoteEvents m (stripLabel line).2).filter (fun e => isCardEtype e.etype) = [] :=
    List.filter_eq_nil_iff.2 (fun e he => by simp [hquotes e he])
  have hcard : isCardEtype (mkEv m (if who == 1 then "RC_US".data else "RC_OPP".data)
      nm line).etype = true := by
    cases h : who == 1 <;> simp [h, mkEv, isCardEtype]
  have hsingle : ∀ x : Event, isCardEtype x.etype = true →
      (List.filter (fun e => isCardEtype e.etype) [x]).length = 1 := by
    intro x hx
    simp [List.filter, hx]
  refine ⟨?_, ?_, ?_⟩
  · rw [hcl, List.filter_append, hfq]
    rw [List.nil_append]
    exact hsingle _ hcard
  · intro e he hc
    rw [hcl] at he
    rcases List.mem_append.1 he with h | h
    · rw [quoteEvents_etype h] at hc
      simp [isCardEtype] at hc
    · simp only [List.mem_singleton] at h
      subst h
      cases hw : who == 1
      · right
        simp [mkEv, hw]
      · left
        simp [mkEv, hw]
  · intro e he
    rw [hcl] at he
    rcases List.mem_append.1 he with h | h
    · rw [quoteEvents_etype h]
      constructor <;> intro hcon <;> simp at hcon
    · simp only [List.mem_singleton] at h
      subst h
      cases hw : who == 1 <;>
        · constructor <;> intro hcon <;> simp [mkEv, hw] at hcon

/-- Witness for the amended C8 at a concrete second-yellow line. -/
theorem second_yellow_classified_once_as_red_witness :
    ((classifyLine (buildTeamAliases "Arsenal".data) (buildTeamAliases "Leeds".data)
      ["Saka".data] ["Smith".data] true "55".data
      "[MIN=55] Second yellow card to Smith (Leeds) for a late challenge.".data).filter
        (fun e => isCardEtype e.etype)).length = 1 :=
  (second_yellow_classified_once_as_red (buildTeamAliases "Arsenal".data)
    (buildTeamAliases "Leeds".data) ["Saka".data] ["Smith".data] true "55".data
    "[MIN=55] Second yellow card to Smith (Leeds) for a late challenge.".data
    (by decide) (by decide) (by decide) (by decide) (by decide) (by decide) (by decide)
    (by decide) (by decide) (by decide) (by decide)).1

/-! ## Lemmas for the minute-normalizer analysis -/

/-- The textual form of the optional added-time part of a minute. -/
def plusPart : Option (List Char) → List Char
  | none => []
  | some m => '+' :: m

/-- The inline pass started with a given previous-character context and
canonical fuel. -/
def minInlineFrom (prev : Option Char) (l : List Char) : List Char :=
  minInlineGo (l.length + 1) prev l

theorem digit_ne_of (c x : Char) (h : isAsciiDigit c = true) (hx : isAsciiDigit x = false) :
    (c == x) = false := by
  cases hbe : c == x
  · rfl
  · exfalso
    have : c = x := by simpa using hbe
    subst this
    rw [h] at hx
    cases hx

theorem digit_not_pyspace (c : Char) (h : isAsciiDigit c = true) : isPySpace c = false := by
  unfold isPySpace
  rw [digit_ne_of c ' ' h (by decide), digit_ne_of c '\t' h (by decide),
    digit_ne_of c '\n' h (by decide), digit_ne_of c '\r' h (by decide),
    digit_ne_of c (Char.ofNat 12) h (by decide), digit_ne_of c (Char.ofNat 11) h (by decide)]
  rfl

theorem digit_wordchar (c : Char) (h : isAsciiDigit c = true) : isWordChar c = true := by
  unfold isWordChar
  rw [h]
  simp

theorem takeWhile_append_all (p : Char → Bool) (ds rest : List Char)
    (h : ∀ c ∈ ds, p c = true) :
    (ds ++ rest).takeWhile p = ds ++ rest.takeWhile p := by
  induction ds with
  | nil => simp
  | cons c cs ih =>
    have hc : p c = true := h c (by simp)
    simp only [List.cons_append, List.takeWhile_cons, hc, if_true]
    rw [ih (fun d hd => h d (by simp [hd]))]

theorem takeWhile_cons_false (p : Char → Bool) (c : Char) (t : List Char) (h : p c = false) :
    (c :: t).takeWhile p = [] := by
  simp [List.takeWhile_cons, h]

theorem drop_takeWhile_length (p : Char → Bool) :
    ∀ l : List Char, l.drop (l.takeWhile p).length = l.dropWhile p := by
  intro l
  induction l with
  | nil => rfl
  | cons c t ih =>
    by_cases h : p c = true
    · simp only [List.takeWhile_cons, h, if_true, List.length_cons, List.drop_succ_cons,
        List.dropWhile_cons, ih]
    · have h' : p c = false := by simpa using h
      simp [List.takeWhile_cons, List.dropWhile_cons, h']

theorem getLastD_mem_or (l : List Char) (d : Char) :
    l.getLastD d = d ∨ l.getLastD d ∈ l := by
  induction l generalizing d with
  | nil => left; rfl
  | cons c t ih =>
    rw [List.getLastD_cons]
    rcases ih c with h | h
    · right; rw [h]; exact List.mem_cons_self c t
    · right; exact List.mem_cons_of_mem c h

theorem getLastD_takeWhile_not_nl (rest : List Char) (hnl : '\n' ∉ rest) (d : Char)
    (hd : (d == '\n') = false) :
    ((rest.takeWhile isPySpace).getLastD d == '\n') = false := by
  rcases getLastD_mem_or (rest.takeWhile isPySpace) d with h | h
  · rw [h]; exact hd
  · have hmem2 : (rest.takeWhile isPySpace).getLastD d ∈ rest :=
      (List.takeWhile_sublist _).subset h
    have : (rest.takeWhile isPySpace).getLastD d ≠ '\n' := by
      intro hcon
      rw [hcon] at hmem2
      exact hnl hmem2
    simpa using this

theorem minLineGo_no_nl : ∀ (f : Nat) (l : List Char), '\n' ∉ l →
    minLineGo f false l = l := by
  intro f
  induction f with
  | zero => intro l _; rfl
  | succ f ih =>
    intro l hnl
    cases l with
    | nil => rfl
    | cons c t =>
      have hc : (c == '\n') = false := by
        have : c ≠ '\n' := fun h => hnl (by simp [h])
        simpa using this
      simp [minLineGo, hc, ih t (fun h => hnl (by simp [h]))]

theorem minLineSep_apos (rest : List Char) (hnl : '\n' ∉ rest) :
    minLineSep (apos :: rest) = some (rest.dropWhile isPySpace, false) := by
  unfold minLineSep
  rw [takeWhile_cons_false isPySpace apos rest (by decide)]
  simp only [List.length_nil, List.drop_zero]
  rw [if_pos (by decide)]
  rw [drop_takeWhile_length]
  rw [getLastD_takeWhile_not_nl rest hnl apos (by decide)]

theorem matchMinLine_spec (ds : List Char) (ms : Option (List Char)) (rest : List Char)
    (hne : ds ≠ []) (h3 : ds.length ≤ 3) (hd : ∀ c ∈ ds, isAsciiDigit c = true)
    (hms : ∀ m, ms = some m → m ≠ [] ∧ m.length ≤ 2 ∧ ∀ c ∈ m, isAsciiDigit c = true)
    (hnl : '\n' ∉ rest) :
    matchMinLine (ds ++ (plusPart ms ++ apos :: rest))
      = some (ds, ms, rest.dropWhile isPySpace, false) := by
  have hlen1 : 1 ≤ ds.length := by
    cases ds with
    | nil => exact absurd rfl hne
    | cons c t => simp
  have hdw : (ds ++ (plusPart ms ++ apos :: rest)).dropWhile isPySpace
      = ds ++ (plusPart ms ++ apos :: rest) := by
    cases ds with
    | nil => exact absurd rfl hne
    | cons d ds' =>
      have hdsp : isPySpace d = false := digit_not_pyspace d (hd d (by simp))
      simp [List.dropWhile_cons, hdsp]
  simp only [matchMinLine]
  rw [hdw]
  have hplus0 : (plusPart ms ++ apos :: rest).takeWhile isAsciiDigit = [] := by
    rcases ms with _ | m
    · exact takeWhile_cons_false _ _ _ (by decide)
    · exact takeWhile_cons_false _ _ _ (by decide)
  have htw : (ds ++ (plusPart ms ++ apos :: rest)).takeWhile isAsciiDigit = ds := by
    rw [takeWhile_append_all _ _ _ hd, hplus0, List.append_nil]
  rw [htw]
  rw [if_neg (by simp only [Bool.or_eq_true, decide_eq_true_eq, not_or]; omega)]
  rw [List.drop_left]
  rcases ms with _ | m
  · simp only [plusPart, List.nil_append]
    rw [if_neg (by decide)]
    rw [minLineSep_apos rest hnl]
  · rcases hms m rfl with ⟨hm1, hm2, hm3⟩
    simp only [plusPart, List.cons_append]
    rw [if_pos (by decide)]
    have htm : (m ++ apos :: rest).takeWhile isAsciiDigit = m := by
      rw [takeWhile_append_all _ _ _ hm3, takeWhile_cons_false _ _ _ (by decide),
        List.append_nil]
    rw [htm]
    have hm1' : 1 ≤ m.length := by
      cases m with
      | nil => exact absurd rfl hm1
      | cons c t => simp
    rw [if_pos (by simp only [Bool.and_eq_true, decide_eq_true_eq]; omega)]
    rw [List.drop_left]
    rw [minLineSep_apos rest hnl]

theorem minLineGo_start (f : Nat) (hf : 1 ≤ f) (c : Char) (t : List Char)
    (ds : List Char) (ms : Option (List Char)) (rest2 : List Char)
    (hm : matchMinLine (c :: t) = some (ds, ms, rest2, false)) :
    minLineGo f true (c :: t) = (tagOf ds ms ++ [' ']) ++ minLineGo (f - 1) false rest2 := by
  obtain ⟨f', rfl⟩ : ∃ f', f = f' + 1 := ⟨f - 1, by omega⟩
  simp [minLineGo, hm]

theorem minLineSub_spec (ds : List Char) (ms : Option (List Char)) (rest : List Char)
    (hne : ds ≠ []) (h3 : ds.length ≤ 3) (hd : ∀ c ∈ ds, isAsciiDigit c = true)
    (hms : ∀ m, ms = some m → m ≠ [] ∧ m.length ≤ 2 ∧ ∀ c ∈ m, isAsciiDigit c = true)
    (hnl : '\n' ∉ rest) :
    minLineSub (ds ++ (plusPart ms ++ apos :: rest))
      = (tagOf ds ms ++ [' ']) ++ rest.dropWhile isPySpace := by
  rcases ds with _ | ⟨d, ds'⟩
  · exact absurd rfl hne
  have hm := matchMinLine_spec (d :: ds') ms rest hne h3 hd hms hnl
  unfold minLineSub
  simp only [List.cons_append] at hm ⊢
  rw [minLineGo_start _ (by simp) d _ _ _ _ hm]
  have hnl2 : '\n' ∉ rest.dropWhile isPySpace := fun h =>
    hnl ((List.dropWhile_sublist _).subset h)
  rw [minLineGo_no_nl _ _ hnl2]


/-- A word-character context blocks the opening word boundary of
MIN_INLINE. -/
theorem mi_none_prevword (p : Char) (h : isWordChar p = true) (l : List Char) :
    matchMinInline (some p) l = none := by
  simp [matchMinInline, h]

/-- A non-digit at the current position cannot start a MIN_INLINE match. -/
theorem mi_none_nondigit (prev : Option Char) (c : Char) (h : isAsciiDigit c = false)
    (t : List Char) : matchMinInline prev (c :: t) = none := by
  simp only [matchMinInline, takeWhile_cons_false _ _ _ h]
  cases prev with
  | none => simp
  | some p => cases hp : isWordChar p <;> simp [hp]

theorem digit_getLastD (ds : List Char) (hne : ds ≠ [])
    (hd : ∀ c ∈ ds, isAsciiDigit c = true) : isAsciiDigit (ds.getLastD '0') = true := by
  rcases getLastD_mem_or ds '0' with h | h
  · rw [h]; decide
  · exact hd _ h

/-- The finishing step of MIN_INLINE at a closing bracket: no
apostrophe-like glyph, and the bracket is a non-word character, so the
trailing word boundary holds. -/
theorem miFinish_bracket (ds : List Char) (ms : Option (List Char)) (last : Char)
    (tail : List Char) :
    miFinish ds ms last (']' :: tail) = some (ds, ms, ']' :: tail, last) := rfl

/-- MIN_INLINE applied right after the equals sign of an emitted tag
matches the tag's own digit groups, stopping at the closing bracket. -/
theorem mi_digits (ds : List Char) (ms : Option (List Char)) (tail : List Char)
    (hne : ds ≠ []) (h3 : ds.length ≤ 3) (hd : ∀ c ∈ ds, isAsciiDigit c = true)
    (hms : ∀ m, ms = some m → m ≠ [] ∧ m.length ≤ 2 ∧ ∀ c ∈ m, isAsciiDigit c = true) :
    matchMinInline (some '=') (ds ++ (plusPart ms ++ ']' :: tail))
      = some (ds, ms, ']' :: tail,
          (match ms with | none => ds.getLastD '0' | some m => m.getLastD '0')) := by
  have hlen1 : 1 ≤ ds.length := by
    cases ds with
    | nil => exact absurd rfl hne
    | cons c t => simp
  have hplus0 : (plusPart ms ++ ']' :: tail).takeWhile isAsciiDigit = [] := by
    rcases ms with _ | m
    · exact takeWhile_cons_false _ _ _ (by decide)
    · exact takeWhile_cons_false _ _ _ (by decide)
  have htw : (ds ++ (plusPart ms ++ ']' :: tail)).takeWhile isAsciiDigit = ds := by
    rw [takeWhile_append_all _ _ _ hd, hplus0, List.append_nil]
  simp only [matchMinInline, htw]
  rw [if_neg (by decide)]
  rw [if_neg (by simp only [Bool.or_eq_true, decide_eq_true_eq, not_or]; omega)]
  rw [List.drop_left]
  rcases ms with _ | m
  · simp only [plusPart, List.nil_append]
    rw [if_neg (by decide)]
    exact miFinish_bracket ds none (ds.getLastD '0') tail
  · rcases hms m rfl with ⟨hm1, hm2, hm3⟩
    have htm : (m ++ ']' :: tail).takeWhile isAsciiDigit = m := by
      rw [takeWhile_append_all _ _ _ hm3, takeWhile_cons_false _ _ _ (by decide),
        List.append_nil]
    simp only [plusPart, List.cons_append]
    rw [if_pos (by decide)]
    rw [htm]
    rcases m with _ | ⟨a, m'⟩
    · exact absurd rfl hm1
    rcases m' with _ | ⟨b, m''⟩
    · have h2 : miPlus ds [a] ([a] ++ ']' :: tail) 2 = none := rfl
      have h1 : miPlus ds [a] ([a] ++ ']' :: tail) 1
          = some (ds, some [a], ']' :: tail, a) := rfl
      rw [h2, h1]
      rfl
    rcases m'' with _ | ⟨e, m3⟩
    · have h2 : miPlus ds [a, b] ([a, b] ++ ']' :: tail) 2
          = some (ds, some [a, b], ']' :: tail, b) := rfl
      rw [h2]
      rfl
    · exfalso
      simp only [List.length_cons] at hm2
      omega

theorem miFinish_consumes (ds : List Char) (ms : Option (List Char)) (last : Char)
    (l2 : List Char) (r : List Char × Option (List Char) × List Char × Char)
    (h : miFinish ds ms last l2 = some r) : r.2.2.1.length ≤ l2.length := by
  cases l2 with
  | nil =>
    simp only [miFinish] at h
    cases h
    simp
  | cons a rest2 =>
    simp only [miFinish] at h
    split at h
    · cases h
      simp
    · split at h
      · cases h
        simp
      · cases h

theorem miPlus_consumes (ds ms l3 : List Char) (k : Nat)
    (r : List Char × Option (List Char) × List Char × Char)
    (h : miPlus ds ms l3 k = some r) : r.2.2.1.length ≤ l3.length := by
  simp only [miPlus] at h
  split at h
  · have hb := miFinish_consumes _ _ _ _ _ h
    have hdl : (l3.drop k).length = l3.length - k := List.length_drop k l3
    omega
  · cases h

/-- A successful inline match consumes at least one character. -/
theorem matchMinInline_consumes (prev : Option Char) (l : List Char)
    (r : List Char × Option (List Char) × List Char × Char)
    (h : matchMinInline prev l = some r) : r.2.2.1.length < l.length := by
  simp only [matchMinInline] at h
  split at h
  · cases h
  split at h
  · cases h
  rename_i hguard
  have hds1 : 1 ≤ (l.takeWhile isAsciiDigit).length := by
    by_contra hcon
    apply hguard
    simp only [Bool.or_eq_true, decide_eq_true_eq]
    omega
  have hdsle : (l.takeWhile isAsciiDigit).length ≤ l.length :=
    List.Sublist.length_le (List.takeWhile_sublist _)
  have hl2 : (l.drop (l.takeWhile isAsciiDigit).length).length
      = l.length - (l.takeWhile isAsciiDigit).length := List.length_drop _ _
  have hkey : r.2.2.1.length ≤ l.length - (l.takeWhile isAsciiDigit).length := by
    split at h
    · rename_i c l3 heq
      have hlen3 : l3.length + 1 = l.length - (l.takeWhile isAsciiDigit).length := by
        have hc : (c :: l3).length = (l.drop (l.takeWhile isAsciiDigit).length).length := by
          rw [heq]
        simp only [List.length_cons] at hc
        omega
      split at h
      · split at h
        · rename_i r2 heq2
          cases h
          have hb := miPlus_consumes _ _ _ _ _ heq2
          omega
        · split at h
          · rename_i r2 heq2
            cases h
            have hb := miPlus_consumes _ _ _ _ _ heq2
            omega
          · have hb := miFinish_consumes _ _ _ _ _ h
            omega
      · have hb := miFinish_consumes _ _ _ _ _ h
        omega
    · have hb := miFinish_consumes _ _ _ _ _ h
      omega
  omega

/-- The inline scan is independent of the fuel as long as the fuel covers
the input length. -/
theorem minInlineGo_fuel : ∀ (f g : Nat) (prev : Option Char) (l : List Char),
    l.length ≤ f → l.length ≤ g → minInlineGo f prev l = minInlineGo g prev l := by
  intro f
  induction f with
  | zero =>
    intro g prev l hf _
    have hln : l = [] := List.length_eq_zero.1 (Nat.le_zero.1 hf)
    subst hln
    cases g <;> rfl
  | succ f ih =>
    intro g prev l hf hg
    cases l with
    | nil => cases g <;> rfl
    | cons c rest =>
      obtain ⟨g', rfl⟩ : ∃ g', g = g' + 1 := by
        refine ⟨g - 1, ?_⟩
        have h1 : 1 ≤ g := le_trans (by simp) hg
        omega
      simp only [minInlineGo]
      cases hm : matchMinInline prev (c :: rest) with
      | none =>
        simp only [List.length_cons] at hf hg
        exact congrArg (c :: ·) (ih g' (some c) rest (by omega) (by omega))
      | some r =>
        rcases r with ⟨ds2, ms2, rest2, last⟩
        have hcons := matchMinInline_consumes prev (c :: rest) _ hm
        simp only [List.length_cons] at hcons hf hg
        exact congrArg (tagOf ds2 ms2 ++ ·) (ih g' (some last) rest2 (by omega) (by omega))

/-- One copying step of the inline scan when no match fires here. -/
theorem minInlineGo_copy (f : Nat) (hf : 1 ≤ f) (prev : Option Char) (c : Char)
    (t : List Char) (h : matchMinInline prev (c :: t) = none) :
    minInlineGo f prev (c :: t) = c :: minInlineGo (f - 1) (some c) t := by
  obtain ⟨f', rfl⟩ : ∃ f', f = f' + 1 := ⟨f - 1, by omega⟩
  simp [minInlineGo, h]

/-- One substituting step of the inline scan when a match fires here. -/
theorem minInlineGo_step (f : Nat) (hf : 1 ≤ f) (prev : Option Char) (c : Char)
    (t : List Char) (ds : List Char) (ms : Option (List Char)) (rest2 : List Char)
    (last : Char) (h : matchMinInline prev (c :: t) = some (ds, ms, rest2, last)) :
    minInlineGo f prev (c :: t) = tagOf ds ms ++ minInlineGo (f - 1) (some last) rest2 := by
  obtain ⟨f', rfl⟩ : ∃ f', f = f' + 1 := ⟨f - 1, by omega⟩
  simp [minInlineGo, h]

/-- The substituting step for an arbitrary nonempty input list. -/
theorem minInlineGo_stepNe (f : Nat) (hf : 1 ≤ f) (prev : Option Char)
    (l : List Char) (hl : l ≠ []) (ds : List Char) (ms : Option (List Char))
    (rest2 : List Char) (last : Char)
    (h : matchMinInline prev l = some (ds, ms, rest2, last)) :
    minInlineGo f prev l = tagOf ds ms ++ minInlineGo (f - 1) (some last) rest2 := by
  cases l with
  | nil => exact absurd rfl hl
  | cons c t => exact minInlineGo_step f hf prev c t ds ms rest2 last h

/-- The first-pass output of a minute-prefixed line, in head-normal list
form. -/
theorem minLineSub_cons_form (ds : List Char) (ms : Option (List Char)) (r1 : List Char)
    (hnz : stripZeros ds = ds) :
    (tagOf ds ms ++ [' ']) ++ r1
      = '[' :: 'M' :: 'I' :: 'N' :: '=' ::
          (ds ++ (plusPart ms ++ ']' :: ' ' :: r1)) := by
  have e1 : ("[MIN=".data : List Char) = ['[', 'M', 'I', 'N', '='] := rfl
  have e2 : ("]".data : List Char) = [']'] := rfl
  rcases ms with _ | m <;>
    simp [tagOf, hnz, plusPart, e1, e2, List.append_assoc]

/-- C3: the minute normalizer does not leave the rest of the line
unchanged.  On a line starting with the minute prefix, the inline safety
pass of normalise_minutes re-matches the digits of the tag the line pass
just emitted (the scan resumes at the equals sign, a non-word character,
so the word boundary of MIN_INLINE holds), wrapping the prefix twice, and
the rest of the line is subjected to the inline pass, which wraps every
standalone one-to-three digit run.  The claim's statement fails on the
line made of 45, an apostrophe, and the text hi 2 there: the output is
doubly tagged and the bare 2 is rewritten. -/
theorem minute_tag_rewrapped_counterexample :
    (normaliseMinutes ⟨"45".data ++ (plusPart none ++ apos :: " hi 2 there".data)⟩).data
      = "[MIN=[MIN=45]] hi [MIN=2] there".data
    ∧ startsWithL "[MIN=45]".data
        (normaliseMinutes ⟨"45".data ++ (plusPart none ++ apos :: " hi 2 there".data)⟩).data
      = false := by
  constructor
  · rfl
  · rfl

/-- C3 (amended): for a line of the shape digits, optional plus group,
apostrophe, rest (no newline in the rest), the output of
normalise_minutes is the doubly wrapped tag, a space, and the inline
safety pass applied to the rest of the line with its leading whitespace
swallowed by the line pass. -/
theorem normalise_minutes_amended (ds : List Char) (ms : Option (List Char)) (rest : List Char)
    (hne : ds ≠ []) (h3 : ds.length ≤ 3) (hd : ∀ c ∈ ds, isAsciiDigit c = true)
    (hnz : stripZeros ds = ds)
    (hms : ∀ m, ms = some m → m ≠ [] ∧ m.length ≤ 2 ∧ ∀ c ∈ m, isAsciiDigit c = true)
    (hnl : '\n' ∉ rest) :
    (normaliseMinutes ⟨ds ++ (plusPart ms ++ apos :: rest)⟩).data
      = ("[MIN=[MIN=".data ++ (ds ++ (plusPart ms ++ "]] ".data)))
          ++ minInlineFrom (some ' ') (rest.dropWhile isPySpace) := by
  show minInlineSub (minLineSub (ds ++ (plusPart ms ++ apos :: rest))) = _
  rw [minLineSub_spec ds ms rest hne h3 hd hms hnl]
  rw [minLineSub_cons_form ds ms (rest.dropWhile isPySpace) hnz]
  simp only [minInlineSub]
  obtain ⟨k, hk⟩ : ∃ k,
      (ds ++ (plusPart ms ++ ']' :: ' ' :: rest.dropWhile isPySpace)).length = k := ⟨_, rfl⟩
  have hmlen : (ds ++ (plusPart ms ++ ']' :: ' ' :: rest.dropWhile isPySpace)).length
      = ds.length + (plusPart ms).length + ((rest.dropWhile isPySpace).length + 2) := by
    simp only [List.length_append, List.length_cons]
    omega
  rw [hmlen] at hk
  have hfuel : ('[' :: 'M' :: 'I' :: 'N' :: '=' ::
      (ds ++ (plusPart ms ++ ']' :: ' ' :: rest.dropWhile isPySpace))).length + 1 = k + 6 := by
    simp only [List.length_cons, hmlen]
    omega
  rw [hfuel]
  rw [minInlineGo_copy (k + 6) (by omega) none '[' _
    (mi_none_nondigit none '[' (by decide) _)]
  rw [minInlineGo_copy (k + 6 - 1) (by omega) (some '[') 'M' _
    (mi_none_nondigit (some '[') 'M' (by decide) _)]
  rw [minInlineGo_copy (k + 6 - 1 - 1) (by omega) (some 'M') 'I' _
    (mi_none_prevword 'M' (by decide) _)]
  rw [minInlineGo_copy (k + 6 - 1 - 1 - 1) (by omega) (some 'I') 'N' _
    (mi_none_prevword 'I' (by decide) _)]
  rw [minInlineGo_copy (k + 6 - 1 - 1 - 1 - 1) (by omega) (some 'N') '=' _
    (mi_none_prevword 'N' (by decide) _)]
  have hmi := mi_digits ds ms (' ' :: rest.dropWhile isPySpace) hne h3 hd hms
  rw [minInlineGo_stepNe (k + 6 - 1 - 1 - 1 - 1 - 1) (by omega) (some '=') _
    (by simp) _ _ _ _ hmi]
  rw [minInlineGo_copy (k + 6 - 1 - 1 - 1 - 1 - 1 - 1) (by omega) _ ']' _
    (mi_none_nondigit _ ']' (by decide) _)]
  rw [minInlineGo_copy (k + 6 - 1 - 1 - 1 - 1 - 1 - 1 - 1) (by omega) _ ' ' _
    (mi_none_nondigit _ ' ' (by decide) _)]
  rw [minInlineGo_fuel (k + 6 - 1 - 1 - 1 - 1 - 1 - 1 - 1 - 1)
    ((rest.dropWhile isPySpace).length + 1) (some ' ') (rest.dropWhile isPySpace)
    (by omega) (by omega)]
  have e1 : ("[MIN=[MIN=".data : List Char)
      = ['[', 'M', 'I', 'N', '=', '[', 'M', 'I', 'N', '='] := rfl
  have e2 : ("]] ".data : List Char) = [']', ']', ' '] := rfl
  have e3 : ("[MIN=".data : List Char) = ['[', 'M', 'I', 'N', '='] := rfl
  have e4 : ("]".data : List Char) = [']'] := rfl
  rcases ms with _ | m <;>
    simp [minInlineFrom, tagOf, hnz, plusPart, e1, e2, e3, e4, List.append_assoc]

/-- Witness for the amended normalizer theorem at a concrete line. -/
theorem normalise_minutes_amended_witness :
    (normaliseMinutes ⟨"45".data ++ (plusPart none ++ apos :: " hi 2 there".data)⟩).data
      = ("[MIN=[MIN=".data ++ ("45".data ++ (plusPart none ++ "]] ".data)))
          ++ minInlineFrom (some ' ') (" hi 2 there".data.dropWhile isPySpace) :=
  normalise_minutes_amended "45".data none " hi 2 there".data (by decide) (by decide)
    (by decide) (by decide) (fun m hm => by cases hm) (by decide)

end Mascot
